import Mathlib

/-!
# gorm-migrator: the migration engine

A shallow embedding of `migrator.go` (and the parts of `migration.go` and
`logger.go` it uses), followed by theorems about the engine.

The database is explicit state.  A `World` carries

* `db.ledger`  the rows of the migration table, read in ascending storage id;
* `db.data`    everything else the database holds (what handlers act on);
* `notes`      the calls made on the logger, oldest first;
* `ops`        the statements the database connection has seen, oldest first.

Go's `error` results are `Outcome`s; a run-time panic (index out of range) is
the third outcome.  Go's `int` is `Int`.
-/

namespace GormMigrator

/-! ## Data model -/

/-- Go `error` values that are not nil. -/
abbrev Err := String

/-- Result of a Go function returning `error`: nil, an error, or a run-time panic. -/
inductive Outcome where
  | nil : Outcome
  | err (e : Err) : Outcome
  | panic : Outcome
deriving DecidableEq, Repr

/-- One variadic argument of a logger call (`ctx ...interface{}`). -/
inductive Arg where
  | str (s : String) : Arg
  | err (e : Err) : Arg
deriving DecidableEq, Repr

/-- The methods of `ILogger` that take a message (logger.go). -/
inductive Level where
  | debug | info | warn | error | crit
deriving DecidableEq, Repr

/-- One call made on the logger. -/
structure Note where
  level : Level
  msg : String
  ctx : List Arg
deriving DecidableEq, Repr

/-- What the database connection sees, with the error each statement returned. -/
inductive Op where
  | createTable (table : String) (r : Option Err) : Op
  | scan (r : Option Err) : Op
  | begin : Op
  | migrate (id : String) (r : Option Err) : Op
  | rollback (id : String) (r : Option Err) : Op
  | insert (id : String) (r : Option Err) : Op
  | delete (id : String) (r : Option Err) : Op
  | commit : Op
  | abort : Op
deriving DecidableEq, Repr

/-- The part of the state a transaction commits or rolls back. -/
structure Db (σ : Type) where
  data : σ
  ledger : List String
deriving DecidableEq, Repr

/-- The database together with the history of logger calls and statements. -/
structure World (σ : Type) where
  db : Db σ
  notes : List Note
  ops : List Op
deriving DecidableEq, Repr

/-- Go `MigrationHandler` (migration.go): runs on the transaction handle and returns
an error or nil; the changes it made before failing are in the returned data.
Handlers act on the data outside the migration table: the ledger is written by the
engine only. -/
abbrev MigrationHandler (σ : Type) := σ → Option Err × σ

/-- Go `Migration` (migration.go). -/
structure Migration (σ : Type) where
  Id : String
  Migrate : MigrationHandler σ
  Rollback : MigrationHandler σ

/-- The `*gorm.DB` handle: when the statements the engine issues fail.  A failure
may depend on the whole history, so it may differ between two calls. -/
structure Handle (σ : Type) where
  createErr : String → World σ → Option Err
  scanErr : World σ → Option Err
  scanNil : World σ → Bool
  insertErr : String → World σ → Option Err
  deleteErr : String → World σ → Option Err

/-- Go `ILogger` values: the stdout logger of logger.go, or one the caller supplies. -/
inductive ILogger where
  | stdout (debugMode : Bool) : ILogger
  | custom (name : String) : ILogger
deriving DecidableEq, Repr

/-- Go `NewStdoutLogger` (logger.go). -/
def NewStdoutLogger (debugMode : Bool) : ILogger := ILogger.stdout debugMode

/-- Go `Config` (migrator.go); a nil `Logger` is `none`. -/
structure Config (σ : Type) where
  Db : Handle σ
  Table : String
  Logger : Option ILogger

/-- Go `Migrator` (migrator.go); the two counters are never read or written. -/
structure Migrator (σ : Type) where
  migrations : List (Migration σ)
  config : Config σ
  executedCount : Int
  availableCount : Int

/-! ## Constants (migrator.go, lines 7-17) -/

def defaultMigrationTableName : String := "migrations"

/-- The second constant of the block, so `iota` is 1. -/
def actionMigrate : Int := 1

/-- The third constant of the block: `iota` is 2. -/
def actionRollback : Int := 2

def noAvailableMigrations : String := "no available migrations"
def migrationRolledBack : String := "migration rolled back"
def migrationFailed : String := "migration failed"
def migrationExecuted : String := "migration executed"

/-! ## Collaborators -/

variable {σ : Type}

/-- Go `m.config.Logger.Info(msg, ctx...)`. -/
def Info (msg : String) (ctx : List Arg) (w : World σ) : World σ :=
  { w with notes := w.notes ++ [Note.mk Level.info msg ctx] }

/-- The connection sees one more statement. -/
def seen (o : Op) (w : World σ) : World σ :=
  { w with ops := w.ops ++ [o] }

/-- Modelled from the spec: the helper `Contains` of this package is not among the
sources; the spec reads it as membership of the id in the executed set. -/
def Contains (list : List String) (id : String) : Bool :=
  list.contains id

/-- Modelled from the spec: `gorm.DB.Transaction` is the store's `runInTransaction`
(section 4.1): it runs `fc` on a transactional handle, commits iff `fc` succeeds,
rolls back otherwise, and propagates the result of `fc` unchanged. -/
def Transaction (fc : World σ → Outcome × World σ) (w : World σ) : Outcome × World σ :=
  match fc (seen Op.begin w) with
  | (Outcome.nil, tx) => (Outcome.nil, seen Op.commit tx)
  | (r, tx) => (r, seen Op.abort { tx with db := w.db })

/-- A handler is called on the transaction handle. -/
def callHandler (h : MigrationHandler σ) (o : Option Err → Op) (tx : World σ) :
    Outcome × World σ :=
  match h tx.db.data with
  | (none, d) => (Outcome.nil, seen (o none) { tx with db := { tx.db with data := d } })
  | (some e, d) => (Outcome.err e, seen (o (some e)) { tx with db := { tx.db with data := d } })

/-! ## migrator.go -/

/-- Go `createMigrationTable`: CREATE TABLE IF NOT EXISTS. -/
def Migrator.createMigrationTable (m : Migrator σ) (w : World σ) : Outcome × World σ :=
  match m.config.Db.createErr m.config.Table w with
  | some e => (Outcome.err e, seen (Op.createTable m.config.Table (some e)) w)
  | none => (Outcome.nil, seen (Op.createTable m.config.Table none) w)

/-- Go `NewMigrator`: the pair `(*Migrator, error)`, a nil pointer being `none`. -/
def NewMigrator (migrations : List (Migration σ)) (config : Config σ) (w : World σ) :
    (Option (Migrator σ) × Outcome) × World σ :=
  let config := if config.Logger = none then
    { config with Logger := some (NewStdoutLogger true) } else config
  let m : Migrator σ := { migrations := migrations, config := config,
                          executedCount := 0, availableCount := 0 }
  let m := if m.config.Table = "" then
    { m with config := { m.config with Table := defaultMigrationTableName } } else m
  match m.createMigrationTable w with
  | (Outcome.nil, w1) => ((some m, Outcome.nil), w1)
  | (r, w1) => ((none, r), w1)

/-- Go `getExecutedMigrationList`: the `migration` column ordered by `id asc`; the
slice stays nil (`none`) when the driver leaves it so on an empty result. -/
def Migrator.getExecutedMigrationList (m : Migrator σ) (w : World σ) :
    Except Err (Option (List String)) × World σ :=
  match m.config.Db.scanErr w with
  | some e => (Except.error e, seen (Op.scan (some e)) w)
  | none =>
    if w.db.ledger = [] ∧ m.config.Db.scanNil w = true then
      (Except.ok none, seen (Op.scan none) w)
    else (Except.ok (some w.db.ledger), seen (Op.scan none) w)

/-- Go `markMigrationExecuted`: the new row gets the next storage id, so it is read last. -/
def Migrator.markMigrationExecuted (m : Migrator σ) (id : String) (tx : World σ) :
    Outcome × World σ :=
  match m.config.Db.insertErr id tx with
  | some e => (Outcome.err e, seen (Op.insert id (some e)) tx)
  | none => (Outcome.nil,
      seen (Op.insert id none) { tx with db := { tx.db with ledger := tx.db.ledger ++ [id] } })

/-- Go `removeMigrationExecutedMark`: deletes every row whose `migration` is `id`. -/
def Migrator.removeMigrationExecutedMark (m : Migrator σ) (id : String) (tx : World σ) :
    Outcome × World σ :=
  match m.config.Db.deleteErr id tx with
  | some e => (Outcome.err e, seen (Op.delete id (some e)) tx)
  | none => (Outcome.nil,
      seen (Op.delete id none)
        { tx with db := { tx.db with ledger := tx.db.ledger.filter (fun x => x ≠ id) } })

/-- Go `executeMigration`. -/
def Migrator.executeMigration (m : Migrator σ) (migration : Migration σ) (action : Int)
    (w : World σ) : Outcome × World σ :=
  Transaction (fun tx =>
    if action = actionMigrate then
      match callHandler migration.Migrate (Op.migrate migration.Id) tx with
      | (Outcome.nil, tx1) => m.markMigrationExecuted migration.Id tx1
      | r => r
    else
      match callHandler migration.Rollback (Op.rollback migration.Id) tx with
      | (Outcome.nil, tx1) => m.removeMigrationExecutedMark migration.Id tx1
      | r => r) w

/-- Go `getMigrationsForRun`. -/
def Migrator.getMigrationsForRun (m : Migrator σ) (w : World σ) :
    Except Err (List (Migration σ)) × World σ :=
  match m.getExecutedMigrationList w with
  | (Except.error e, w1) => (Except.error e, w1)
  | (Except.ok none, w1) =>
    (Except.ok (m.migrations.foldl (fun res migration => res ++ [migration]) []), w1)
  | (Except.ok (some executed), w1) =>
    (Except.ok (m.migrations.foldl (fun res migration =>
      if Contains executed migration.Id then res else res ++ [migration]) []), w1)

/-- Go `getMigrationsForRollback`. -/
def Migrator.getMigrationsForRollback (m : Migrator σ) (w : World σ) :
    Except Err (List (Migration σ)) × World σ :=
  match m.getExecutedMigrationList w with
  | (Except.error e, w1) => (Except.error e, w1)
  | (Except.ok none, w1) => (Except.ok [], w1)
  | (Except.ok (some executed), w1) =>
    (Except.ok (m.migrations.foldl (fun res migration =>
      if Contains executed migration.Id then res ++ [migration] else res) []), w1)

/-- The loop of `runMigrationList`; the list argument is `list[i:]`, so that
`i < len(list)` is its being non-empty and `list[i]` is its head. -/
def runMigrationListLoop (count : Int) (runner : Migration σ → World σ → Outcome × World σ) :
    Nat → List (Migration σ) → World σ → Outcome × World σ
  | _, [], w => (Outcome.nil, w)
  | i, x :: rest, w =>
    if (i : Int) < count then
      match runner x w with
      | (Outcome.nil, w1) => runMigrationListLoop count runner (i + 1) rest w1
      | r => r
    else (Outcome.nil, w)

/-- Go `runMigrationList`. -/
def Migrator.runMigrationList (_m : Migrator σ) (list : List (Migration σ)) (count : Int)
    (runner : Migration σ → World σ → Outcome × World σ) (w : World σ) : Outcome × World σ :=
  runMigrationListLoop count runner 0 list w

/-- The loop of `rollbackMigrationList`: `fuel` bounds the iterations left; the
element `list[lenList-1-i]` is read with Go's bounds check. -/
def rollbackMigrationListLoop (list : List (Migration σ)) (lenList count : Int)
    (runner : Migration σ → World σ → Outcome × World σ) :
    Nat → Int → World σ → Outcome × World σ
  | 0, _, w => (Outcome.nil, w)
  | fuel + 1, i, w =>
    if i < count then
      match (if 0 ≤ lenList - 1 - i then list[(lenList - 1 - i).toNat]? else none) with
      | none => (Outcome.panic, w)
      | some x =>
        match runner x w with
        | (Outcome.nil, w1) => rollbackMigrationListLoop list lenList count runner fuel (i + 1) w1
        | r => r
    else (Outcome.nil, w)

/-- Go `rollbackMigrationList`; the loop runs at most `count` times. -/
def Migrator.rollbackMigrationList (_m : Migrator σ) (list : List (Migration σ)) (count : Int)
    (runner : Migration σ → World σ → Outcome × World σ) (w : World σ) : Outcome × World σ :=
  let lenList : Int := list.length
  let count := if count > lenList then lenList else count
  rollbackMigrationListLoop list lenList count runner count.toNat 0 w

/-- The closure `Run` and `RunStep` hand to `runMigrationList`. -/
def Migrator.migrateRunner (m : Migrator σ) (migration : Migration σ) (w : World σ) :
    Outcome × World σ :=
  match m.executeMigration migration actionMigrate w with
  | (Outcome.nil, w1) => (Outcome.nil, Info migrationExecuted [Arg.str "id", Arg.str migration.Id] w1)
  | (Outcome.err e, w1) =>
    (Outcome.err e,
      Info migrationFailed [Arg.str "id", Arg.str migration.Id, Arg.str "err", Arg.err e] w1)
  | (Outcome.panic, w1) => (Outcome.panic, w1)

/-- The closure `RunCheck` and `RunStepCheck` hand to `runMigrationList`. -/
def Migrator.migrateCheckRunner (_m : Migrator σ) (migration : Migration σ) (w : World σ) :
    Outcome × World σ :=
  (Outcome.nil, Info migrationExecuted [Arg.str "id", Arg.str migration.Id] w)

/-- The closure `RollbackStep` hands to `rollbackMigrationList`. -/
def Migrator.rollbackRunner (m : Migrator σ) (migration : Migration σ) (w : World σ) :
    Outcome × World σ :=
  match m.executeMigration migration actionRollback w with
  | (Outcome.nil, w1) =>
    (Outcome.nil, Info migrationRolledBack [Arg.str "id", Arg.str migration.Id] w1)
  | (Outcome.err e, w1) =>
    (Outcome.err e,
      Info migrationFailed [Arg.str "id", Arg.str migration.Id, Arg.str "err", Arg.err e] w1)
  | (Outcome.panic, w1) => (Outcome.panic, w1)

/-- The closure `RollbackStepCheck` hands to `rollbackMigrationList`. -/
def Migrator.rollbackCheckRunner (_m : Migrator σ) (migration : Migration σ) (w : World σ) :
    Outcome × World σ :=
  (Outcome.nil, Info migrationRolledBack [Arg.str "id", Arg.str migration.Id] w)

/-- Go `Run`. -/
def Migrator.Run (m : Migrator σ) (w : World σ) : Outcome × World σ :=
  match m.getMigrationsForRun w with
  | (Except.error e, w1) => (Outcome.err e, w1)
  | (Except.ok forRun, w1) =>
    if forRun.length = 0 then (Outcome.nil, Info noAvailableMigrations [] w1)
    else m.runMigrationList forRun forRun.length m.migrateRunner w1

/-- Go `RunCheck`. -/
def Migrator.RunCheck (m : Migrator σ) (w : World σ) : Outcome × World σ :=
  match m.getMigrationsForRun w with
  | (Except.error e, w1) => (Outcome.err e, w1)
  | (Except.ok forRun, w1) =>
    if forRun.length = 0 then (Outcome.nil, Info noAvailableMigrations [] w1)
    else m.runMigrationList forRun forRun.length m.migrateCheckRunner w1

/-- Go `RunStep`. -/
def Migrator.RunStep (m : Migrator σ) (step : Int) (w : World σ) : Outcome × World σ :=
  match m.getMigrationsForRun w with
  | (Except.error e, w1) => (Outcome.err e, w1)
  | (Except.ok forRun, w1) =>
    if forRun.length = 0 then (Outcome.nil, Info noAvailableMigrations [] w1)
    else m.runMigrationList forRun step m.migrateRunner w1

/-- Go `RunStepCheck`. -/
def Migrator.RunStepCheck (m : Migrator σ) (step : Int) (w : World σ) : Outcome × World σ :=
  match m.getMigrationsForRun w with
  | (Except.error e, w1) => (Outcome.err e, w1)
  | (Except.ok forRun, w1) =>
    if forRun.length = 0 then (Outcome.nil, Info noAvailableMigrations [] w1)
    else m.runMigrationList forRun step m.migrateCheckRunner w1

/-- Go `RollbackStep`. -/
def Migrator.RollbackStep (m : Migrator σ) (step : Int) (w : World σ) : Outcome × World σ :=
  match m.getMigrationsForRollback w with
  | (Except.error e, w1) => (Outcome.err e, w1)
  | (Except.ok forRollback, w1) =>
    if forRollback.length = 0 then (Outcome.nil, Info noAvailableMigrations [] w1)
    else m.rollbackMigrationList forRollback step m.rollbackRunner w1

/-- Go `RollbackStepCheck`. -/
def Migrator.RollbackStepCheck (m : Migrator σ) (step : Int) (w : World σ) :
    Outcome × World σ :=
  match m.getMigrationsForRollback w with
  | (Except.error e, w1) => (Outcome.err e, w1)
  | (Except.ok forRollback, w1) =>
    if forRollback.length = 0 then (Outcome.nil, Info noAvailableMigrations [] w1)
    else if step = 0 then (Outcome.nil, w1)
    else m.rollbackMigrationList forRollback step m.rollbackCheckRunner w1

/-! ## The fixtures of migrator_test.go -/

/-- One unit of `createTestMigrations`: the handlers run one statement each; the
data is the list of statements run so far. -/
def testMigration (n : String) : Migration (List String) :=
  { Id := "migration_" ++ n
    Migrate := fun d => (none, d ++ ["execute migration_" ++ n])
    Rollback := fun d => (none, d ++ ["rollback migration_" ++ n]) }

/-- Go `createTestMigrations`: the five units 0..4. -/
def createTestMigrations : List (Migration (List String)) :=
  ["0", "1", "2", "3", "4"].map testMigration

/-- A connection on which every statement succeeds. -/
def sqlmockHandle : Handle (List String) :=
  { createErr := fun _ _ => none
    scanErr := fun _ => none
    scanNil := fun _ => true
    insertErr := fun _ _ => none
    deleteErr := fun _ _ => none }

/-- Go `createMigrator` of the tests, with the table `migrations_table`. -/
def testMigrator : Migrator (List String) :=
  { migrations := createTestMigrations
    config := { Db := sqlmockHandle, Table := "migrations_table",
                Logger := some (ILogger.custom "mock") }
    executedCount := 0
    availableCount := 0 }

/-- A connection on which every ledger insert and delete fails. -/
def readOnlyHandle : Handle (List String) :=
  { createErr := fun _ _ => none
    scanErr := fun _ => none
    scanNil := fun _ => true
    insertErr := fun _ _ => some "insert failed"
    deleteErr := fun _ _ => some "delete failed" }

/-- The sequence of the tests on the connection whose ledger writes fail. -/
def readOnlyMigrator : Migrator (List String) :=
  { migrations := createTestMigrations
    config := { Db := readOnlyHandle, Table := "migrations_table",
                Logger := some (ILogger.custom "mock") }
    executedCount := 0
    availableCount := 0 }

/-- A unit whose forward handler runs its statement and then returns an error. -/
def brokenMigration (n : String) : Migration (List String) :=
  { Id := "migration_" ++ n
    Migrate := fun d => (some "syntax error", d ++ ["execute migration_" ++ n])
    Rollback := fun d => (none, d ++ ["rollback migration_" ++ n]) }

/-- The sequence 0..4 in which the forward handler of unit 2 fails. -/
def brokenMigrator : Migrator (List String) :=
  { migrations := [testMigration "0", testMigration "1", brokenMigration "2",
                   testMigration "3", testMigration "4"]
    config := { Db := sqlmockHandle, Table := "migrations_table",
                Logger := some (ILogger.custom "mock") }
    executedCount := 0
    availableCount := 0 }

/-- A unit that creates a table and drops it again; the data is the list of the
tables that exist.  The forward handler fails when the table exists already and
the backward handler fails when it does not. -/
def tableMigration (n : String) : Migration (List String) :=
  { Id := "create_" ++ n
    Migrate := fun d => if n ∈ d then (some "table exists", d) else (none, d ++ [n])
    Rollback := fun d =>
      if n ∈ d then (none, d.filter (fun t => t ≠ n)) else (some "unknown table", d) }

/-- Two table-creating units on the connection of the tests. -/
def tableMigrator : Migrator (List String) :=
  { migrations := [tableMigration "users", tableMigration "posts"]
    config := { Db := sqlmockHandle, Table := "migrations_table",
                Logger := some (ILogger.custom "mock") }
    executedCount := 0
    availableCount := 0 }

/-- Go `exceptExecutedMigrations`: a fresh world whose ledger holds the given ids. -/
def executedWorld (ledger : List String) : World (List String) :=
  { db := { data := [], ledger := ledger }, notes := [], ops := [] }

/-- The ledger of `Test_Migrator_RunCheck`: units 0 and 2 are recorded. -/
def world02 : World (List String) := executedWorld ["migration_0", "migration_2"]

/-- A ledger that records the first two units of the sequence. -/
def world01 : World (List String) := executedWorld ["migration_0", "migration_1"]

/-- The ledger of `Test_Migrator_Run`: units 0, 2 and 4 are recorded. -/
def world024 : World (List String) :=
  executedWorld ["migration_0", "migration_2", "migration_4"]

/-- The ledger of `Test_Migrator_RollbackStep`: units 1, 2 and 4 are recorded. -/
def world124 : World (List String) :=
  executedWorld ["migration_1", "migration_2", "migration_4"]

/-- The ledger of `Test_Migrator_RollbackStep`: all five units are recorded. -/
def worldAll : World (List String) :=
  executedWorld ["migration_0", "migration_1", "migration_2", "migration_3", "migration_4"]

/-! ## Vocabulary of the theorems -/

/-- The ids of a list of units, in order. -/
def idsOf (l : List (Migration σ)) : List String := l.map (fun x => x.Id)

/-- The forward set for a ledger content: the units whose id is not recorded. -/
def forwardSet (migrations : List (Migration σ)) (ledger : List String) :
    List (Migration σ) :=
  migrations.filter (fun x => decide (x.Id ∉ ledger))

/-- The backward set for a ledger content: the units whose id is recorded. -/
def backwardSet (migrations : List (Migration σ)) (ledger : List String) :
    List (Migration σ) :=
  migrations.filter (fun x => decide (x.Id ∈ ledger))

/-- Calling `runner` on the units of a list in turn, up to the first call that
does not return nil. -/
def runList (runner : Migration σ → World σ → Outcome × World σ) :
    List (Migration σ) → World σ → Outcome × World σ
  | [], w => (Outcome.nil, w)
  | x :: rest, w =>
    match runner x w with
    | (Outcome.nil, w1) => runList runner rest w1
    | r => r

/-- The statements of a forward execution that commits. -/
def forwardOk (x : Migration σ) : List Op :=
  [Op.begin, Op.migrate x.Id none, Op.insert x.Id none, Op.commit]

/-- The statements of a backward execution that commits. -/
def backwardOk (x : Migration σ) : List Op :=
  [Op.begin, Op.rollback x.Id none, Op.delete x.Id none, Op.commit]

/-- The statements of a forward execution that fails with `e`: the handler fails,
or it succeeds and the ledger insert fails; either way the transaction is rolled back. -/
def forwardFailed (x : Migration σ) (e : Err) (seg : List Op) : Prop :=
  seg = [Op.begin, Op.migrate x.Id (some e), Op.abort]
  ∨ seg = [Op.begin, Op.migrate x.Id none, Op.insert x.Id (some e), Op.abort]

/-- The statements of a backward execution that fails with `e`. -/
def backwardFailed (x : Migration σ) (e : Err) (seg : List Op) : Prop :=
  seg = [Op.begin, Op.rollback x.Id (some e), Op.abort]
  ∨ seg = [Op.begin, Op.rollback x.Id none, Op.delete x.Id (some e), Op.abort]

/-- The notification `migration executed` for a unit. -/
def executedNote (x : Migration σ) : Note :=
  Note.mk Level.info migrationExecuted [Arg.str "id", Arg.str x.Id]

/-- The notification `migration rolled back` for a unit. -/
def rolledBackNote (x : Migration σ) : Note :=
  Note.mk Level.info migrationRolledBack [Arg.str "id", Arg.str x.Id]

/-- The notification `migration failed` for a unit and an error. -/
def failedNote (x : Migration σ) (e : Err) : Note :=
  Note.mk Level.info migrationFailed [Arg.str "id", Arg.str x.Id, Arg.str "err", Arg.err e]

/-- The notification `no available migrations`. -/
def noAvailableNote : Note := Note.mk Level.info noAvailableMigrations []

/-- The transaction handle on which the ledger write of a unit runs: the
transaction was opened in `w` and the handler, seen as `o`, left the data `d`. -/
def txAfter (o : Op) (d : σ) (w : World σ) : World σ :=
  seen o { seen Op.begin w with db := { data := d, ledger := w.db.ledger } }

/-- The data after the forward handlers of the units ran in turn. -/
def migrateAll (l : List (Migration σ)) (d : σ) : σ :=
  l.foldl (fun d x => (x.Migrate d).2) d

/-- The data after the backward handlers of the units ran in turn. -/
def rollbackAll (l : List (Migration σ)) (d : σ) : σ :=
  l.foldl (fun d x => (x.Rollback d).2) d

/-- The ids carried by the notifications with message `msg` among logger calls. -/
def notifiedIds (msg : String) (notes : List Note) : List String :=
  notes.filterMap (fun n =>
    match n.ctx with
    | [Arg.str k, Arg.str id] =>
      if n.level = Level.info ∧ n.msg = msg ∧ k = "id" then some id else none
    | _ => none)

/-- The ids of the units whose forward handler was called, in the order of the calls. -/
def forwardCalls (ops : List Op) : List String :=
  ops.filterMap (fun o =>
    match o with
    | Op.migrate id _ => some id
    | _ => none)

/-- The ids of the units whose backward handler was called, in the order of the calls. -/
def backwardCalls (ops : List Op) : List String :=
  ops.filterMap (fun o =>
    match o with
    | Op.rollback id _ => some id
    | _ => none)

/-- The ids of the ledger deletes that succeeded, in the order they were sent. -/
def deletes (ops : List Op) : List String :=
  ops.filterMap (fun o =>
    match o with
    | Op.delete id none => some id
    | _ => none)

/-- The outcome `r` of processing the units of `l` from the world `w`, in the
order of `l`: either every unit committed, each sending `okOps` and notified once
by `okNote`, and nil is returned; or the units before some unit `x` committed and
were so notified, `x` failed with an error `e`, which is notified once by
`migration failed` and then returned, and nothing is sent or notified for the
units after `x`. -/
def Reports (okOps : Migration σ → List Op) (failedOps : Migration σ → Err → List Op → Prop)
    (okNote : Migration σ → Note) (l : List (Migration σ)) (w : World σ)
    (r : Outcome × World σ) : Prop :=
  (r.1 = Outcome.nil
    ∧ r.2.notes = w.notes ++ l.map okNote
    ∧ r.2.ops = w.ops ++ l.flatMap okOps)
  ∨ ∃ pre x post e seg, l = pre ++ x :: post
    ∧ failedOps x e seg
    ∧ r.1 = Outcome.err e
    ∧ r.2.notes = w.notes ++ pre.map okNote ++ [failedNote x e]
    ∧ r.2.ops = w.ops ++ pre.flatMap okOps ++ seg

/-- The outcome `r` of a call from the world `w` that found nothing to process:
it returns nil, its one notification is `no available migrations` at info level
with no fields, the database is as before and the only statement sent is the
ledger read. -/
def OnlyNoAvailable (w : World σ) (r : Outcome × World σ) : Prop :=
  r.1 = Outcome.nil
  ∧ r.2.notes = w.notes ++ [Note.mk Level.info "no available migrations" []]
  ∧ r.2.db = w.db
  ∧ r.2.ops = w.ops ++ [Op.scan none]

/-- The outcome `r` of a call from the world `w` that read the ledger and did
nothing else: it returns nil, notifies nothing, the database is as before and the
only statement sent is the ledger read. -/
def OnlyRead (w : World σ) (r : Outcome × World σ) : Prop :=
  r.1 = Outcome.nil
  ∧ r.2.notes = w.notes
  ∧ r.2.db = w.db
  ∧ r.2.ops = w.ops ++ [Op.scan none]

/-- The outcome `r` of a call from the world `w` that could not read the ledger:
it returns the error of the read, notifies nothing, leaves the database as before
and has sent the failed read only. -/
def OnlyReadError (e : Err) (w : World σ) (r : Outcome × World σ) : Prop :=
  r.1 = Outcome.err e
  ∧ r.2.notes = w.notes
  ∧ r.2.db = w.db
  ∧ r.2.ops = w.ops ++ [Op.scan (some e)]

/-- A connection on which the ledger cannot be read. -/
def downHandle : Handle (List String) :=
  { createErr := fun _ _ => some "connection refused"
    scanErr := fun _ => some "connection refused"
    scanNil := fun _ => true
    insertErr := fun _ _ => none
    deleteErr := fun _ _ => none }

/-- The sequence of the tests on the connection that is down. -/
def downMigrator : Migrator (List String) :=
  { migrations := createTestMigrations
    config := { Db := downHandle, Table := "migrations_table",
                Logger := some (ILogger.custom "mock") }
    executedCount := 0
    availableCount := 0 }

/-- The ids of the units a selection returned, `none` when it returned an error. -/
def okIds (r : Except Err (List (Migration σ))) : Option (List String) :=
  match r with
  | Except.ok l => some (idsOf l)
  | Except.error _ => none

end GormMigrator

namespace GormMigrator

variable {σ : Type}

/-! ## Selection of the forward and the backward set -/

theorem foldl_append_unless (p : Migration σ → Bool) (l acc : List (Migration σ)) :
    l.foldl (fun res x => if p x then res else res ++ [x]) acc
      = acc ++ l.filter (fun x => !p x) := by
  induction l generalizing acc with
  | nil => simp
  | cons a t ih =>
    simp only [List.foldl_cons, ih, List.filter_cons]
    cases p a <;> simp

theorem foldl_append_when (p : Migration σ → Bool) (l acc : List (Migration σ)) :
    l.foldl (fun res x => if p x then res ++ [x] else res) acc = acc ++ l.filter p := by
  induction l generalizing acc with
  | nil => simp
  | cons a t ih =>
    simp only [List.foldl_cons, ih, List.filter_cons]
    cases p a <;> simp

theorem foldl_append_all (l acc : List (Migration σ)) :
    l.foldl (fun res x => res ++ [x]) acc = acc ++ l := by
  induction l generalizing acc with
  | nil => simp
  | cons a t ih => simp [ih]

/-- What `getMigrationsForRun` does when the ledger can be read. -/
theorem getMigrationsForRun_ok (m : Migrator σ) (w : World σ)
    (h : m.config.Db.scanErr w = none) :
    m.getMigrationsForRun w
      = (Except.ok (forwardSet m.migrations w.db.ledger), seen (Op.scan none) w) := by
  unfold Migrator.getMigrationsForRun Migrator.getExecutedMigrationList forwardSet
  rw [h]
  by_cases hc : w.db.ledger = [] ∧ m.config.Db.scanNil w = true
  · simp only [hc, and_self, if_true, foldl_append_all, List.nil_append]
    simp [hc.1]
  · simp only [hc, if_false, foldl_append_unless, List.nil_append, Contains]
    congr 2
    apply List.filter_congr
    intro x _
    simp

/-- What `getMigrationsForRun` does when the ledger cannot be read. -/
theorem getMigrationsForRun_error (m : Migrator σ) (w : World σ) (e : Err)
    (h : m.config.Db.scanErr w = some e) :
    m.getMigrationsForRun w = (Except.error e, seen (Op.scan (some e)) w) := by
  unfold Migrator.getMigrationsForRun Migrator.getExecutedMigrationList
  rw [h]

/-- What `getMigrationsForRollback` does when the ledger can be read. -/
theorem getMigrationsForRollback_ok (m : Migrator σ) (w : World σ)
    (h : m.config.Db.scanErr w = none) :
    m.getMigrationsForRollback w
      = (Except.ok (backwardSet m.migrations w.db.ledger), seen (Op.scan none) w) := by
  unfold Migrator.getMigrationsForRollback Migrator.getExecutedMigrationList backwardSet
  rw [h]
  by_cases hc : w.db.ledger = [] ∧ m.config.Db.scanNil w = true
  · simp only [hc, and_self, if_true]
    simp [hc.1]
  · simp only [hc, if_false, foldl_append_when, List.nil_append, Contains]
    congr 2
    apply List.filter_congr
    intro x _
    simp

/-- What `getMigrationsForRollback` does when the ledger cannot be read. -/
theorem getMigrationsForRollback_error (m : Migrator σ) (w : World σ) (e : Err)
    (h : m.config.Db.scanErr w = some e) :
    m.getMigrationsForRollback w = (Except.error e, seen (Op.scan (some e)) w) := by
  unfold Migrator.getMigrationsForRollback Migrator.getExecutedMigrationList
  rw [h]

theorem backwardSet_perm (migrations : List (Migration σ)) (l1 l2 : List String)
    (h : l1.Perm l2) : backwardSet migrations l1 = backwardSet migrations l2 := by
  unfold backwardSet
  apply List.filter_congr
  intro x _
  simp [h.mem_iff]

/-- C1: whenever the ledger can be read (empty, read as nil, or not),
`getMigrationsForRun` returns exactly the units of the sequence whose id does not
occur in the ledger, in sequence order: the result is the sequence filtered by
"id not in the ledger", whatever the position of the missing entries. -/
theorem getMigrationsForRun_spec (m : Migrator σ) (w : World σ)
    (h : m.config.Db.scanErr w = none) :
    (m.getMigrationsForRun w).1
      = Except.ok (m.migrations.filter (fun x => decide (x.Id ∉ w.db.ledger))) := by
  rw [getMigrationsForRun_ok m w h]
  rfl

/-- C1, on the input of `Test_Migrator_RunCheck`: sequence 0..4 with the ledger
[0, 2] gives [1, 3, 4]. -/
theorem getMigrationsForRun_spec_witness :
    testMigrator.config.Db.scanErr
        (executedWorld ["migration_0", "migration_2"]) = none
    ∧ (testMigrator.getMigrationsForRun (executedWorld ["migration_0", "migration_2"])).1
        = Except.ok (testMigrator.migrations.filter (fun x =>
            decide (x.Id ∉ (executedWorld ["migration_0", "migration_2"]).db.ledger)))
    ∧ okIds (testMigrator.getMigrationsForRun
          (executedWorld ["migration_0", "migration_2"])).1
        = some ["migration_1", "migration_3", "migration_4"] :=
  ⟨rfl, getMigrationsForRun_spec testMigrator _ rfl, by decide⟩

/-- C2: whenever the ledger can be read, `getMigrationsForRollback` returns exactly
the units of the sequence whose id occurs in the ledger, in sequence order; a
ledger that is a permutation of this one yields the same result. -/
theorem getMigrationsForRollback_spec (m : Migrator σ) (w : World σ)
    (h : m.config.Db.scanErr w = none) :
    (m.getMigrationsForRollback w).1
        = Except.ok (m.migrations.filter (fun x => decide (x.Id ∈ w.db.ledger)))
    ∧ ∀ w2 : World σ, m.config.Db.scanErr w2 = none → w2.db.ledger.Perm w.db.ledger →
        (m.getMigrationsForRollback w2).1 = (m.getMigrationsForRollback w).1 := by
  refine ⟨?_, ?_⟩
  · rw [getMigrationsForRollback_ok m w h]
    rfl
  · intro w2 h2 hp
    rw [getMigrationsForRollback_ok m w h, getMigrationsForRollback_ok m w2 h2,
      backwardSet_perm _ _ _ hp]

/-- C2, on the sequence 0..4: the ledgers [4, 1, 2] and [1, 2, 4] both give
[1, 2, 4]. -/
theorem getMigrationsForRollback_spec_witness :
    testMigrator.config.Db.scanErr
        (executedWorld ["migration_1", "migration_2", "migration_4"]) = none
    ∧ ((testMigrator.getMigrationsForRollback
          (executedWorld ["migration_1", "migration_2", "migration_4"])).1
        = Except.ok (testMigrator.migrations.filter (fun x => decide
            (x.Id ∈ (executedWorld ["migration_1", "migration_2", "migration_4"]).db.ledger)))
      ∧ ∀ w2 : World (List String), testMigrator.config.Db.scanErr w2 = none →
          w2.db.ledger.Perm
            (executedWorld ["migration_1", "migration_2", "migration_4"]).db.ledger →
          (testMigrator.getMigrationsForRollback w2).1
            = (testMigrator.getMigrationsForRollback
                (executedWorld ["migration_1", "migration_2", "migration_4"])).1)
    ∧ okIds (testMigrator.getMigrationsForRollback
          (executedWorld ["migration_4", "migration_1", "migration_2"])).1
        = some ["migration_1", "migration_2", "migration_4"] :=
  ⟨rfl, getMigrationsForRollback_spec testMigrator _ rfl, by decide⟩

end GormMigrator

namespace GormMigrator

variable {σ : Type}

/-! ## The two loops -/

theorem runMigrationListLoop_eq (count : Int)
    (runner : Migration σ → World σ → Outcome × World σ) (l : List (Migration σ)) :
    ∀ (i : Nat) (w : World σ),
      runMigrationListLoop count runner i l w
        = runList runner (l.take (count - i).toNat) w := by
  induction l with
  | nil => intro i w; simp [runMigrationListLoop, runList]
  | cons x rest ih =>
    intro i w
    unfold runMigrationListLoop
    by_cases h : (i : Int) < count
    · have h1 : (count - (i : Int)).toNat = (count - ((i + 1 : Nat) : Int)).toNat + 1 := by
        push_cast; omega
      rw [if_pos h, h1, List.take_succ_cons]
      simp only [runList]
      rcases hr : runner x w with ⟨o, w1⟩
      cases o <;> simp [ih]
    · have h1 : (count - (i : Int)).toNat = 0 := by omega
      rw [if_neg h, h1]
      simp [runList]

theorem runMigrationList_eq (m : Migrator σ) (list : List (Migration σ)) (count : Int)
    (runner : Migration σ → World σ → Outcome × World σ) (w : World σ) :
    m.runMigrationList list count runner w = runList runner (list.take count.toNat) w := by
  unfold Migrator.runMigrationList
  rw [runMigrationListLoop_eq]
  simp

theorem rollbackMigrationListLoop_eq (list : List (Migration σ)) (count : Int)
    (runner : Migration σ → World σ → Outcome × World σ)
    (hc : count ≤ (list.length : Int)) :
    ∀ (fuel k : Nat) (w : World σ), (count - k).toNat ≤ fuel →
      rollbackMigrationListLoop list list.length count runner fuel k w
        = runList runner ((list.reverse.drop k).take (count - k).toNat) w := by
  intro fuel
  induction fuel with
  | zero =>
    intro k w hf
    have h1 : (count - (k : Int)).toNat = 0 := by omega
    simp [rollbackMigrationListLoop, h1, runList]
  | succ fuel ih =>
    intro k w hf
    unfold rollbackMigrationListLoop
    by_cases h : (k : Int) < count
    · have hk : k < list.length := by omega
      have hidx : (((list.length : Int) - 1 - (k : Int)).toNat) = list.length - 1 - k := by omega
      have hpos : (0 : Int) ≤ (list.length : Int) - 1 - (k : Int) := by omega
      have hlt : list.length - 1 - k < list.length := by omega
      have hk2 : k < list.reverse.length := by simpa using hk
      have hget : list[list.length - 1 - k]? = some (list.reverse[k]) := by
        rw [← List.getElem?_reverse hk, List.getElem?_eq_getElem hk2]
      have hdrop : list.reverse.drop k = list.reverse[k] :: list.reverse.drop (k + 1) :=
        List.drop_eq_getElem_cons hk2
      have h1 : (count - (k : Int)).toNat = (count - ((k + 1 : Nat) : Int)).toNat + 1 := by
        push_cast; omega
      rw [if_pos h, if_pos hpos, hidx, hget, hdrop, h1, List.take_succ_cons]
      simp only [runList]
      rcases hr : runner (list.reverse[k]) w with ⟨o, w1⟩
      have hf2 : (count - ((k + 1 : Nat) : Int)).toNat ≤ fuel := by push_cast; omega
      have ih2 := ih (k + 1) w1 hf2
      cases o
      · simpa using ih2
      · simp
      · simp
    · have h1 : (count - (k : Int)).toNat = 0 := by omega
      rw [if_neg h, h1]
      simp [runList]

theorem rollbackMigrationList_eq (m : Migrator σ) (list : List (Migration σ)) (count : Int)
    (runner : Migration σ → World σ → Outcome × World σ) (w : World σ) :
    m.rollbackMigrationList list count runner w
      = runList runner (list.reverse.take count.toNat) w := by
  unfold Migrator.rollbackMigrationList
  by_cases h : count > (list.length : Int)
  · simp only [h, if_true]
    have := rollbackMigrationListLoop_eq list (list.length : Int) runner (le_refl _)
      ((list.length : Int)).toNat 0 w (by simp)
    simp only [Nat.cast_zero, sub_zero, List.drop_zero, Int.toNat_ofNat] at this
    simp only [Int.toNat_ofNat]
    rw [this]
    have h2 : list.length ≤ count.toNat := by omega
    rw [List.take_of_length_le (by simp), List.take_of_length_le (by simp; exact h2)]
  · simp only [h, if_false]
    have := rollbackMigrationListLoop_eq list count runner (by omega) count.toNat 0 w (by simp)
    simpa using this

end GormMigrator

namespace GormMigrator

variable {σ : Type}

/-! ## One unit -/

/-- How a forward execution ends, by the result of the handler and of the insert. -/
theorem executeMigration_migrate (m : Migrator σ) (x : Migration σ) (w : World σ) :
    m.executeMigration x actionMigrate w =
      match x.Migrate w.db.data with
      | (some e, _) =>
        (Outcome.err e, { w with ops := w.ops ++ [Op.begin, Op.migrate x.Id (some e), Op.abort] })
      | (none, d) =>
        match m.config.Db.insertErr x.Id (txAfter (Op.migrate x.Id none) d w) with
        | some e =>
          (Outcome.err e, { w with ops := w.ops ++
            [Op.begin, Op.migrate x.Id none, Op.insert x.Id (some e), Op.abort] })
        | none =>
          (Outcome.nil, { db := { data := d, ledger := w.db.ledger ++ [x.Id] },
                          notes := w.notes, ops := w.ops ++ forwardOk x }) := by
  unfold Migrator.executeMigration Transaction callHandler Migrator.markMigrationExecuted
  simp only [if_true]
  rcases hh : x.Migrate w.db.data with ⟨_ | e, d⟩
  · have hd : (seen Op.begin w).db.data = w.db.data := rfl
    simp only [hd, hh]
    cases hi : m.config.Db.insertErr x.Id (txAfter (Op.migrate x.Id none) d w) <;>
      simp [txAfter, seen] at hi <;> simp [seen, hi, forwardOk]
  · have hd : (seen Op.begin w).db.data = w.db.data := rfl
    simp [hd, hh, seen]

/-- How a backward execution ends, by the result of the handler and of the delete. -/
theorem executeMigration_rollback (m : Migrator σ) (x : Migration σ) (w : World σ) :
    m.executeMigration x actionRollback w =
      match x.Rollback w.db.data with
      | (some e, _) =>
        (Outcome.err e, { w with ops := w.ops ++ [Op.begin, Op.rollback x.Id (some e), Op.abort] })
      | (none, d) =>
        match m.config.Db.deleteErr x.Id (txAfter (Op.rollback x.Id none) d w) with
        | some e =>
          (Outcome.err e, { w with ops := w.ops ++
            [Op.begin, Op.rollback x.Id none, Op.delete x.Id (some e), Op.abort] })
        | none =>
          (Outcome.nil, { db := { data := d, ledger := w.db.ledger.filter (fun y => y ≠ x.Id) },
                          notes := w.notes, ops := w.ops ++ backwardOk x }) := by
  unfold Migrator.executeMigration Transaction callHandler Migrator.removeMigrationExecutedMark
  have ha : ¬ (actionRollback = actionMigrate) := by decide
  simp only [ha, if_false]
  rcases hh : x.Rollback w.db.data with ⟨_ | e, d⟩
  · have hd : (seen Op.begin w).db.data = w.db.data := rfl
    simp only [hd, hh]
    cases hi : m.config.Db.deleteErr x.Id (txAfter (Op.rollback x.Id none) d w) <;>
      simp [txAfter, seen] at hi <;> simp [seen, hi, backwardOk]
  · have hd : (seen Op.begin w).db.data = w.db.data := rfl
    simp [hd, hh, seen]

end GormMigrator

namespace GormMigrator

variable {σ : Type}

/-- The closure of `Run` on one unit: it commits and notifies `migration executed`,
or fails with some `e`, leaves the database as it was and notifies `migration failed`. -/
theorem migrateRunner_cases (m : Migrator σ) (x : Migration σ) (w : World σ) :
    ((m.migrateRunner x w).1 = Outcome.nil
      ∧ (m.migrateRunner x w).2.db
          = { data := (x.Migrate w.db.data).2, ledger := w.db.ledger ++ [x.Id] }
      ∧ (m.migrateRunner x w).2.notes = w.notes ++ [executedNote x]
      ∧ (m.migrateRunner x w).2.ops = w.ops ++ forwardOk x)
    ∨ ∃ e seg, (m.migrateRunner x w).1 = Outcome.err e
      ∧ forwardFailed x e seg
      ∧ (m.migrateRunner x w).2.db = w.db
      ∧ (m.migrateRunner x w).2.notes = w.notes ++ [failedNote x e]
      ∧ (m.migrateRunner x w).2.ops = w.ops ++ seg
      ∧ ((x.Migrate w.db.data).1 = some e ∨ ∃ tx, m.config.Db.insertErr x.Id tx = some e) := by
  unfold Migrator.migrateRunner
  rw [executeMigration_migrate]
  rcases hh : x.Migrate w.db.data with ⟨_ | e, d⟩
  · cases hi : m.config.Db.insertErr x.Id (txAfter (Op.migrate x.Id none) d w) with
    | none =>
      left
      simp [hi, Info, executedNote]
    | some e =>
      right
      refine ⟨e, _, ?_, Or.inr rfl, ?_, ?_, ?_, Or.inr ⟨_, hi⟩⟩ <;> simp [hi, Info, failedNote]
  · right
    refine ⟨e, _, ?_, Or.inl rfl, ?_, ?_, ?_, Or.inl rfl⟩ <;> simp [Info, failedNote]

/-- The closure of `RollbackStep` on one unit. -/
theorem rollbackRunner_cases (m : Migrator σ) (x : Migration σ) (w : World σ) :
    ((m.rollbackRunner x w).1 = Outcome.nil
      ∧ (m.rollbackRunner x w).2.db
          = { data := (x.Rollback w.db.data).2,
              ledger := w.db.ledger.filter (fun y => y ≠ x.Id) }
      ∧ (m.rollbackRunner x w).2.notes = w.notes ++ [rolledBackNote x]
      ∧ (m.rollbackRunner x w).2.ops = w.ops ++ backwardOk x)
    ∨ ∃ e seg, (m.rollbackRunner x w).1 = Outcome.err e
      ∧ backwardFailed x e seg
      ∧ (m.rollbackRunner x w).2.db = w.db
      ∧ (m.rollbackRunner x w).2.notes = w.notes ++ [failedNote x e]
      ∧ (m.rollbackRunner x w).2.ops = w.ops ++ seg
      ∧ ((x.Rollback w.db.data).1 = some e ∨ ∃ tx, m.config.Db.deleteErr x.Id tx = some e) := by
  unfold Migrator.rollbackRunner
  rw [executeMigration_rollback]
  rcases hh : x.Rollback w.db.data with ⟨_ | e, d⟩
  · cases hi : m.config.Db.deleteErr x.Id (txAfter (Op.rollback x.Id none) d w) with
    | none =>
      left
      simp [hi, Info, rolledBackNote]
    | some e =>
      right
      refine ⟨e, _, ?_, Or.inr rfl, ?_, ?_, ?_, Or.inr ⟨_, hi⟩⟩ <;> simp [hi, Info, failedNote]
  · right
    refine ⟨e, _, ?_, Or.inl rfl, ?_, ?_, ?_, Or.inl rfl⟩ <;> simp [Info, failedNote]

/-! ## A list of units -/

/-- Forward execution of a list of units: all commit, or the units before the
first failing one commit and nothing after it is attempted. -/
theorem runList_migrate (m : Migrator σ) (l : List (Migration σ)) :
    ∀ w : World σ,
    ((runList m.migrateRunner l w).1 = Outcome.nil
      ∧ (runList m.migrateRunner l w).2.db
          = { data := migrateAll l w.db.data, ledger := w.db.ledger ++ idsOf l }
      ∧ (runList m.migrateRunner l w).2.notes = w.notes ++ l.map executedNote
      ∧ (runList m.migrateRunner l w).2.ops = w.ops ++ l.flatMap forwardOk)
    ∨ ∃ pre x post e seg, l = pre ++ x :: post
      ∧ (runList m.migrateRunner l w).1 = Outcome.err e
      ∧ forwardFailed x e seg
      ∧ (runList m.migrateRunner l w).2.db
          = { data := migrateAll pre w.db.data, ledger := w.db.ledger ++ idsOf pre }
      ∧ (runList m.migrateRunner l w).2.notes
          = w.notes ++ pre.map executedNote ++ [failedNote x e]
      ∧ (runList m.migrateRunner l w).2.ops = w.ops ++ pre.flatMap forwardOk ++ seg
      ∧ ((∃ d, (x.Migrate d).1 = some e) ∨ ∃ tx, m.config.Db.insertErr x.Id tx = some e) := by
  induction l with
  | nil => intro w; left; simp [runList, migrateAll, idsOf]
  | cons a t ih =>
    intro w
    rcases migrateRunner_cases m a w with ⟨h1, h2, h3, h4⟩ | ⟨e, seg, h1, hseg, h2, h3, h4, h5⟩
    · have hr : runList m.migrateRunner (a :: t) w
          = runList m.migrateRunner t (m.migrateRunner a w).2 := by
        rcases hm : m.migrateRunner a w with ⟨o, w1⟩
        rw [hm] at h1
        simp only at h1
        subst h1
        simp [runList, hm]
      rw [hr]
      rcases ih (m.migrateRunner a w).2 with ⟨g1, g2, g3, g4⟩ | ⟨pre, x, post, e, seg, g0, g1, gseg, g2, g3, g4, g5⟩
      · left
        refine ⟨g1, ?_, ?_, ?_⟩
        · rw [g2, h2]; simp [migrateAll, idsOf]
        · rw [g3, h3]; simp
        · rw [g4, h4]; simp
      · right
        refine ⟨a :: pre, x, post, e, seg, by simp [g0], g1, gseg, ?_, ?_, ?_, g5⟩
        · rw [g2, h2]; simp [migrateAll, idsOf]
        · rw [g3, h3]; simp
        · rw [g4, h4]; simp
    · have hr : runList m.migrateRunner (a :: t) w = m.migrateRunner a w := by
        rcases hm : m.migrateRunner a w with ⟨o, w1⟩
        rw [hm] at h1
        simp only at h1
        subst h1
        simp [runList, hm]
      rw [hr]
      right
      refine ⟨[], a, t, e, seg, rfl, h1, hseg, ?_, ?_, ?_, ?_⟩
      · rw [h2]; simp [migrateAll, idsOf]
      · rw [h3]; simp
      · rw [h4]; simp
      · rcases h5 with h5 | h5
        · exact Or.inl ⟨_, h5⟩
        · exact Or.inr h5

/-- Backward execution of a list of units, in the order of the list. -/
theorem runList_rollback (m : Migrator σ) (l : List (Migration σ)) :
    ∀ w : World σ,
    ((runList m.rollbackRunner l w).1 = Outcome.nil
      ∧ (runList m.rollbackRunner l w).2.db
          = { data := rollbackAll l w.db.data,
              ledger := w.db.ledger.filter (fun y => decide (y ∉ idsOf l)) }
      ∧ (runList m.rollbackRunner l w).2.notes = w.notes ++ l.map rolledBackNote
      ∧ (runList m.rollbackRunner l w).2.ops = w.ops ++ l.flatMap backwardOk)
    ∨ ∃ pre x post e seg, l = pre ++ x :: post
      ∧ (runList m.rollbackRunner l w).1 = Outcome.err e
      ∧ backwardFailed x e seg
      ∧ (runList m.rollbackRunner l w).2.db
          = { data := rollbackAll pre w.db.data,
              ledger := w.db.ledger.filter (fun y => decide (y ∉ idsOf pre)) }
      ∧ (runList m.rollbackRunner l w).2.notes
          = w.notes ++ pre.map rolledBackNote ++ [failedNote x e]
      ∧ (runList m.rollbackRunner l w).2.ops = w.ops ++ pre.flatMap backwardOk ++ seg
      ∧ ((∃ d, (x.Rollback d).1 = some e) ∨ ∃ tx, m.config.Db.deleteErr x.Id tx = some e) := by
  induction l with
  | nil => intro w; left; simp [runList, rollbackAll, idsOf]
  | cons a t ih =>
    intro w
    have hfilter : ∀ (s : List (Migration σ)) (L : List String),
        (L.filter (fun y => y ≠ a.Id)).filter (fun y => decide (y ∉ idsOf s))
          = L.filter (fun y => decide (y ∉ idsOf (a :: s))) := by
      intro s L
      rw [List.filter_filter]
      apply List.filter_congr
      intro y _
      by_cases h1 : y = a.Id <;> by_cases h2 : y ∈ idsOf s <;> simp [idsOf, h1, h2]
    rcases rollbackRunner_cases m a w with ⟨h1, h2, h3, h4⟩ | ⟨e, seg, h1, hseg, h2, h3, h4, h5⟩
    · have hr : runList m.rollbackRunner (a :: t) w
          = runList m.rollbackRunner t (m.rollbackRunner a w).2 := by
        rcases hm : m.rollbackRunner a w with ⟨o, w1⟩
        rw [hm] at h1
        simp only at h1
        subst h1
        simp [runList, hm]
      rw [hr]
      rcases ih (m.rollbackRunner a w).2 with ⟨g1, g2, g3, g4⟩ | ⟨pre, x, post, e, seg, g0, g1, gseg, g2, g3, g4, g5⟩
      · left
        refine ⟨g1, ?_, ?_, ?_⟩
        · rw [g2, h2]; simp only [hfilter]; simp [rollbackAll]
        · rw [g3, h3]; simp
        · rw [g4, h4]; simp
      · right
        refine ⟨a :: pre, x, post, e, seg, by simp [g0], g1, gseg, ?_, ?_, ?_, g5⟩
        · rw [g2, h2]; simp only [hfilter]; simp [rollbackAll]
        · rw [g3, h3]; simp
        · rw [g4, h4]; simp
    · have hr : runList m.rollbackRunner (a :: t) w = m.rollbackRunner a w := by
        rcases hm : m.rollbackRunner a w with ⟨o, w1⟩
        rw [hm] at h1
        simp only at h1
        subst h1
        simp [runList, hm]
      rw [hr]
      right
      refine ⟨[], a, t, e, seg, rfl, h1, hseg, ?_, ?_, ?_, ?_⟩
      · rw [h2]; simp [rollbackAll, idsOf]
      · rw [h3]; simp
      · rw [h4]; simp
      · rcases h5 with h5 | h5
        · exact Or.inl ⟨_, h5⟩
        · exact Or.inr h5

end GormMigrator

namespace GormMigrator

variable {σ : Type}

/-! ## The public operations, once the ledger is read -/

theorem Run_eq (m : Migrator σ) (w : World σ) (h : m.config.Db.scanErr w = none) :
    m.Run w =
      if (forwardSet m.migrations w.db.ledger).length = 0 then
        (Outcome.nil, Info noAvailableMigrations [] (seen (Op.scan none) w))
      else runList m.migrateRunner (forwardSet m.migrations w.db.ledger)
        (seen (Op.scan none) w) := by
  unfold Migrator.Run
  rw [getMigrationsForRun_ok m w h]
  simp only [runMigrationList_eq, Int.toNat_ofNat, List.take_length]

theorem RunStep_eq (m : Migrator σ) (step : Int) (w : World σ)
    (h : m.config.Db.scanErr w = none) :
    m.RunStep step w =
      if (forwardSet m.migrations w.db.ledger).length = 0 then
        (Outcome.nil, Info noAvailableMigrations [] (seen (Op.scan none) w))
      else runList m.migrateRunner ((forwardSet m.migrations w.db.ledger).take step.toNat)
        (seen (Op.scan none) w) := by
  unfold Migrator.RunStep
  rw [getMigrationsForRun_ok m w h]
  simp only [runMigrationList_eq]

theorem RunCheck_eq (m : Migrator σ) (w : World σ) (h : m.config.Db.scanErr w = none) :
    m.RunCheck w =
      if (forwardSet m.migrations w.db.ledger).length = 0 then
        (Outcome.nil, Info noAvailableMigrations [] (seen (Op.scan none) w))
      else runList m.migrateCheckRunner (forwardSet m.migrations w.db.ledger)
        (seen (Op.scan none) w) := by
  unfold Migrator.RunCheck
  rw [getMigrationsForRun_ok m w h]
  simp only [runMigrationList_eq, Int.toNat_ofNat, List.take_length]

theorem RunStepCheck_eq (m : Migrator σ) (step : Int) (w : World σ)
    (h : m.config.Db.scanErr w = none) :
    m.RunStepCheck step w =
      if (forwardSet m.migrations w.db.ledger).length = 0 then
        (Outcome.nil, Info noAvailableMigrations [] (seen (Op.scan none) w))
      else runList m.migrateCheckRunner
        ((forwardSet m.migrations w.db.ledger).take step.toNat) (seen (Op.scan none) w) := by
  unfold Migrator.RunStepCheck
  rw [getMigrationsForRun_ok m w h]
  simp only [runMigrationList_eq]

theorem RollbackStep_eq (m : Migrator σ) (step : Int) (w : World σ)
    (h : m.config.Db.scanErr w = none) :
    m.RollbackStep step w =
      if (backwardSet m.migrations w.db.ledger).length = 0 then
        (Outcome.nil, Info noAvailableMigrations [] (seen (Op.scan none) w))
      else runList m.rollbackRunner
        ((backwardSet m.migrations w.db.ledger).reverse.take step.toNat)
        (seen (Op.scan none) w) := by
  unfold Migrator.RollbackStep
  rw [getMigrationsForRollback_ok m w h]
  simp only [rollbackMigrationList_eq]

theorem RollbackStepCheck_eq (m : Migrator σ) (step : Int) (w : World σ)
    (h : m.config.Db.scanErr w = none) :
    m.RollbackStepCheck step w =
      if (backwardSet m.migrations w.db.ledger).length = 0 then
        (Outcome.nil, Info noAvailableMigrations [] (seen (Op.scan none) w))
      else if step = 0 then (Outcome.nil, seen (Op.scan none) w)
      else runList m.rollbackCheckRunner
        ((backwardSet m.migrations w.db.ledger).reverse.take step.toNat)
        (seen (Op.scan none) w) := by
  unfold Migrator.RollbackStepCheck
  rw [getMigrationsForRollback_ok m w h]
  simp only [rollbackMigrationList_eq]

/-- C3: when the ledger is read and the forward set is not empty, `Run` sends the
statements of the forward-set units in sequence order.  Either it returns nil and
every unit of the forward set was executed once, each in a committed transaction;
or some unit `x` is the first to fail, with an error `e`: the units before it were
committed, the transaction of `x` was rolled back, nothing was sent for the units
after it, and `Run` returns `e`. -/
theorem Run_sequence_order (m : Migrator σ) (w : World σ)
    (hscan : m.config.Db.scanErr w = none)
    (hne : forwardSet m.migrations w.db.ledger ≠ []) :
    ((m.Run w).1 = Outcome.nil
      ∧ (m.Run w).2.ops = w.ops ++ [Op.scan none]
          ++ (forwardSet m.migrations w.db.ledger).flatMap forwardOk)
    ∨ ∃ pre x post e seg, forwardSet m.migrations w.db.ledger = pre ++ x :: post
      ∧ forwardFailed x e seg
      ∧ (m.Run w).1 = Outcome.err e
      ∧ (m.Run w).2.ops = w.ops ++ [Op.scan none] ++ pre.flatMap forwardOk ++ seg := by
  rw [Run_eq m w hscan, if_neg (by simpa using hne)]
  rcases runList_migrate m (forwardSet m.migrations w.db.ledger) (seen (Op.scan none) w) with
    ⟨g1, _, _, g4⟩ | ⟨pre, x, post, e, seg, g0, g1, gseg, _, _, g4, _⟩
  · left
    exact ⟨g1, by rw [g4]; rfl⟩
  · right
    exact ⟨pre, x, post, e, seg, g0, gseg, g1, by rw [g4]; rfl⟩

end GormMigrator

namespace GormMigrator

variable {σ : Type}

/-- C3, on the input of `Test_Migrator_Run`: sequence 0..4 with the ledger
[0, 2, 4]; `Run` executes 1 then 3, each in its own transaction. -/
theorem Run_sequence_order_witness :
    testMigrator.config.Db.scanErr
        (executedWorld ["migration_0", "migration_2", "migration_4"]) = none
    ∧ forwardSet testMigrator.migrations
        (executedWorld ["migration_0", "migration_2", "migration_4"]).db.ledger ≠ []
    ∧ (((testMigrator.Run (executedWorld ["migration_0", "migration_2", "migration_4"])).1
          = Outcome.nil
        ∧ (testMigrator.Run (executedWorld ["migration_0", "migration_2", "migration_4"])).2.ops
          = (executedWorld ["migration_0", "migration_2", "migration_4"]).ops ++ [Op.scan none]
            ++ (forwardSet testMigrator.migrations
                (executedWorld ["migration_0", "migration_2", "migration_4"]).db.ledger).flatMap
                  forwardOk)
      ∨ ∃ pre x post e seg,
        forwardSet testMigrator.migrations
            (executedWorld ["migration_0", "migration_2", "migration_4"]).db.ledger
          = pre ++ x :: post
        ∧ forwardFailed x e seg
        ∧ (testMigrator.Run (executedWorld ["migration_0", "migration_2", "migration_4"])).1
          = Outcome.err e
        ∧ (testMigrator.Run (executedWorld ["migration_0", "migration_2", "migration_4"])).2.ops
          = (executedWorld ["migration_0", "migration_2", "migration_4"]).ops ++ [Op.scan none]
            ++ pre.flatMap forwardOk ++ seg)
    ∧ (testMigrator.Run (executedWorld ["migration_0", "migration_2", "migration_4"])).2.ops
        = [Op.scan none,
           Op.begin, Op.migrate "migration_1" none, Op.insert "migration_1" none, Op.commit,
           Op.begin, Op.migrate "migration_3" none, Op.insert "migration_3" none, Op.commit] :=
  ⟨rfl, fun h => absurd (congrArg List.length h) (by decide),
    Run_sequence_order testMigrator _ rfl
      (fun h => absurd (congrArg List.length h) (by decide)),
    by decide⟩

end GormMigrator

namespace GormMigrator

variable {σ : Type}

/-! ## Facts about the forward set -/

theorem forwardSet_subset (migrations : List (Migration σ)) (ledger : List String) :
    ∀ x ∈ forwardSet migrations ledger, x ∈ migrations := by
  intro x hx
  exact (List.mem_filter.mp hx).1

theorem backwardSet_subset (migrations : List (Migration σ)) (ledger : List String) :
    ∀ x ∈ backwardSet migrations ledger, x ∈ migrations := by
  intro x hx
  exact (List.mem_filter.mp hx).1

theorem idsOf_forwardSet_nodup (migrations : List (Migration σ)) (ledger : List String)
    (h : (idsOf migrations).Nodup) : (idsOf (forwardSet migrations ledger)).Nodup := by
  unfold idsOf forwardSet
  exact List.Nodup.sublist (List.Sublist.map _ (List.filter_sublist _)) h

theorem forwardSet_append (migrations : List (Migration σ)) (ledger ids : List String) :
    forwardSet migrations (ledger ++ ids)
      = (forwardSet migrations ledger).filter (fun x => decide (x.Id ∉ ids)) := by
  unfold forwardSet
  rw [List.filter_filter]
  apply List.filter_congr
  intro x _
  by_cases h1 : x.Id ∈ ledger <;> by_cases h2 : x.Id ∈ ids <;> simp [h1, h2]

theorem filter_not_taken (l : List (Migration σ)) (h : (idsOf l).Nodup) :
    ∀ k : Nat, l.filter (fun x => decide (x.Id ∉ idsOf (l.take k))) = l.drop k := by
  induction l with
  | nil => intro k; simp
  | cons a t ih =>
    intro k
    cases k with
    | zero => simp [idsOf]
    | succ k =>
      have hn : a.Id ∉ idsOf t ∧ (idsOf t).Nodup := by
        simpa [idsOf] using h
      have hrest : t.filter (fun x => decide (x.Id ∉ idsOf ((a :: t).take (k + 1))))
          = t.filter (fun x => decide (x.Id ∉ idsOf (t.take k))) := by
        apply List.filter_congr
        intro x hx
        have hne : x.Id ≠ a.Id := by
          intro he
          apply hn.1
          rw [← he]
          exact List.mem_map_of_mem _ hx
        simp [idsOf, hne]
      rw [List.filter_cons, hrest, ih hn.2 k]
      simp [idsOf]

end GormMigrator

namespace GormMigrator

variable {σ : Type}

/-! ## The last units, last first -/

theorem reverse_take_eq (l : List (Migration σ)) (k : Nat) :
    l.reverse.take k = (l.drop (l.length - k)).reverse := by
  exact List.take_reverse

/-! ## Atomicity of one execution -/

/-- C6: `executeMigration` is atomic.  Forward: if the handler fails with `e`, or it
succeeds and the ledger insert fails with `e`, the call returns `e` and the
database (data and ledger) is as before the call; if both succeed the call returns
nil and the database holds the data the handler left together with the ledger
followed by the id.  Backward: the same with the delete, the ledger losing the id. -/
theorem executeMigration_atomic (m : Migrator σ) (x : Migration σ) (w : World σ) :
    (∀ e d, x.Migrate w.db.data = (some e, d) →
      (m.executeMigration x actionMigrate w).1 = Outcome.err e
      ∧ (m.executeMigration x actionMigrate w).2.db = w.db)
    ∧ (∀ e d, x.Migrate w.db.data = (none, d) →
      m.config.Db.insertErr x.Id (txAfter (Op.migrate x.Id none) d w) = some e →
      (m.executeMigration x actionMigrate w).1 = Outcome.err e
      ∧ (m.executeMigration x actionMigrate w).2.db = w.db)
    ∧ (∀ d, x.Migrate w.db.data = (none, d) →
      m.config.Db.insertErr x.Id (txAfter (Op.migrate x.Id none) d w) = none →
      (m.executeMigration x actionMigrate w).1 = Outcome.nil
      ∧ (m.executeMigration x actionMigrate w).2.db
          = { data := d, ledger := w.db.ledger ++ [x.Id] })
    ∧ (∀ e d, x.Rollback w.db.data = (some e, d) →
      (m.executeMigration x actionRollback w).1 = Outcome.err e
      ∧ (m.executeMigration x actionRollback w).2.db = w.db)
    ∧ (∀ e d, x.Rollback w.db.data = (none, d) →
      m.config.Db.deleteErr x.Id (txAfter (Op.rollback x.Id none) d w) = some e →
      (m.executeMigration x actionRollback w).1 = Outcome.err e
      ∧ (m.executeMigration x actionRollback w).2.db = w.db)
    ∧ (∀ d, x.Rollback w.db.data = (none, d) →
      m.config.Db.deleteErr x.Id (txAfter (Op.rollback x.Id none) d w) = none →
      (m.executeMigration x actionRollback w).1 = Outcome.nil
      ∧ (m.executeMigration x actionRollback w).2.db
          = { data := d, ledger := w.db.ledger.filter (fun y => y ≠ x.Id) }) := by
  rw [executeMigration_migrate, executeMigration_rollback]
  refine ⟨?_, ?_, ?_, ?_, ?_, ?_⟩
  · intro e d h; simp [h]
  · intro e d h hi; simp [h, hi]
  · intro d h hi; simp [h, hi]
  · intro e d h; simp [h]
  · intro e d h hi; simp [h, hi]
  · intro d h hi; simp [h, hi]

/-- C6, on a connection whose ledger insert fails: the forward handler of unit 1
succeeds and leaves its statement in the data, the insert fails, and after the
call the data and the ledger [0, 2] are as before. -/
theorem executeMigration_atomic_witness :
    (testMigration "1").Migrate world02.db.data = (none, ["execute migration_1"])
    ∧ readOnlyMigrator.config.Db.insertErr (testMigration "1").Id
        (txAfter (Op.migrate (testMigration "1").Id none) ["execute migration_1"] world02)
        = some "insert failed"
    ∧ ((readOnlyMigrator.executeMigration (testMigration "1") actionMigrate world02).1
        = Outcome.err "insert failed"
      ∧ (readOnlyMigrator.executeMigration (testMigration "1") actionMigrate world02).2.db
        = world02.db) :=
  ⟨rfl, rfl,
    (executeMigration_atomic readOnlyMigrator (testMigration "1") world02).2.1
      "insert failed" ["execute migration_1"] rfl rfl⟩

end GormMigrator

namespace GormMigrator

variable {σ : Type}

/-! ## When the ledger cannot be read -/

theorem Run_error (m : Migrator σ) (w : World σ) (e : Err)
    (h : m.config.Db.scanErr w = some e) :
    m.Run w = (Outcome.err e, seen (Op.scan (some e)) w) := by
  unfold Migrator.Run
  rw [getMigrationsForRun_error m w e h]

theorem RunCheck_error (m : Migrator σ) (w : World σ) (e : Err)
    (h : m.config.Db.scanErr w = some e) :
    m.RunCheck w = (Outcome.err e, seen (Op.scan (some e)) w) := by
  unfold Migrator.RunCheck
  rw [getMigrationsForRun_error m w e h]

theorem RunStep_error (m : Migrator σ) (step : Int) (w : World σ) (e : Err)
    (h : m.config.Db.scanErr w = some e) :
    m.RunStep step w = (Outcome.err e, seen (Op.scan (some e)) w) := by
  unfold Migrator.RunStep
  rw [getMigrationsForRun_error m w e h]

theorem RunStepCheck_error (m : Migrator σ) (step : Int) (w : World σ) (e : Err)
    (h : m.config.Db.scanErr w = some e) :
    m.RunStepCheck step w = (Outcome.err e, seen (Op.scan (some e)) w) := by
  unfold Migrator.RunStepCheck
  rw [getMigrationsForRun_error m w e h]

theorem RollbackStep_error (m : Migrator σ) (step : Int) (w : World σ) (e : Err)
    (h : m.config.Db.scanErr w = some e) :
    m.RollbackStep step w = (Outcome.err e, seen (Op.scan (some e)) w) := by
  unfold Migrator.RollbackStep
  rw [getMigrationsForRollback_error m w e h]

theorem RollbackStepCheck_error (m : Migrator σ) (step : Int) (w : World σ) (e : Err)
    (h : m.config.Db.scanErr w = some e) :
    m.RollbackStepCheck step w = (Outcome.err e, seen (Op.scan (some e)) w) := by
  unfold Migrator.RollbackStepCheck
  rw [getMigrationsForRollback_error m w e h]

/-! ## Idempotence and resumption of `Run` -/

theorem forwardSet_after_all (migrations : List (Migration σ)) (ledger : List String) :
    forwardSet migrations (ledger ++ idsOf (forwardSet migrations ledger)) = [] := by
  rw [forwardSet_append, List.filter_eq_nil_iff]
  intro x hx
  have : x.Id ∈ idsOf (forwardSet migrations ledger) := List.mem_map_of_mem _ hx
  simpa using this

/-- After a `Run` that returned nil no unit of the sequence is missing in the ledger. -/
theorem forwardSet_after_Run (m : Migrator σ) (w : World σ)
    (h : (m.Run w).1 = Outcome.nil) :
    forwardSet m.migrations (m.Run w).2.db.ledger = [] := by
  cases hs : m.config.Db.scanErr w with
  | some e =>
    rw [Run_error m w e hs] at h
    exact Outcome.noConfusion h
  | none =>
    rw [Run_eq m w hs] at h ⊢
    by_cases hempty : (forwardSet m.migrations w.db.ledger).length = 0
    · rw [if_pos hempty]
      exact List.length_eq_zero.mp hempty
    · rw [if_neg hempty] at h ⊢
      rcases runList_migrate m (forwardSet m.migrations w.db.ledger) (seen (Op.scan none) w)
        with ⟨_, g2, _, _⟩ | ⟨_, _, _, e, _, _, g1, _⟩
      · rw [g2]
        exact forwardSet_after_all _ _
      · rw [g1] at h
        exact Outcome.noConfusion h

/-- C7: if `Run` returned nil, a `Run` that follows it from the state it left sends
only the ledger read: no transaction is opened and no handler is called, and the
database (data and ledger) is unchanged.  When that read succeeds the call returns
nil and its only notification is `no available migrations`; when it fails nothing
is notified. -/
theorem Run_idempotent (m : Migrator σ) (w : World σ)
    (h : (m.Run w).1 = Outcome.nil) :
    (m.Run (m.Run w).2).2.db = (m.Run w).2.db
    ∧ (∃ r, (m.Run (m.Run w).2).2.ops = (m.Run w).2.ops ++ [Op.scan r])
    ∧ (m.config.Db.scanErr (m.Run w).2 = none →
        (m.Run (m.Run w).2).1 = Outcome.nil
        ∧ (m.Run (m.Run w).2).2.notes = (m.Run w).2.notes ++ [noAvailableNote])
    ∧ (∀ e, m.config.Db.scanErr (m.Run w).2 = some e →
        (m.Run (m.Run w).2).1 = Outcome.err e
        ∧ (m.Run (m.Run w).2).2.notes = (m.Run w).2.notes) := by
  have hfs := forwardSet_after_Run m w h
  generalize (m.Run w).2 = w1 at hfs ⊢
  have hlen : (forwardSet m.migrations w1.db.ledger).length = 0 := by rw [hfs]; rfl
  cases hs : m.config.Db.scanErr w1 with
  | some e =>
    rw [Run_error m w1 e hs]
    refine ⟨rfl, ⟨some e, rfl⟩, fun h0 => Option.noConfusion h0, ?_⟩
    intro e2 he2
    cases he2
    exact ⟨rfl, rfl⟩
  | none =>
    rw [Run_eq m w1 hs, if_pos hlen]
    refine ⟨rfl, ⟨none, rfl⟩, fun _ => ⟨rfl, rfl⟩, ?_⟩
    intro e2 he2
    exact Option.noConfusion he2

/-- C7, on the input of `Test_Migrator_Run`: after `Run` on the ledger [0, 2, 4]
a second `Run` only reads the ledger and notifies `no available migrations`. -/
theorem Run_idempotent_witness :
    (testMigrator.Run world024).1 = Outcome.nil
    ∧ (testMigrator.Run (testMigrator.Run world024).2).2.db = (testMigrator.Run world024).2.db
    ∧ (testMigrator.Run (testMigrator.Run world024).2).2.ops
        = (testMigrator.Run world024).2.ops ++ [Op.scan none]
    ∧ (testMigrator.Run (testMigrator.Run world024).2).2.notes
        = (testMigrator.Run world024).2.notes ++ [noAvailableNote] :=
  ⟨by decide, (Run_idempotent testMigrator world024 (by decide)).1, by decide, by decide⟩

/-- C8: for a sequence with unique ids and an empty ledger that can be read, if
`Run` fails with `e` then the sequence splits as `pre ++ x :: post`, where `x` (the
unit number k = |pre| + 1) is the first unit to fail: the units of `pre` were
committed, the transaction of `x` was rolled back with `e`, and afterwards the
ledger holds exactly the k - 1 ids of `pre` in sequence order, so that the forward
set of a following `Run` is `x :: post`, the units k..n. -/
theorem Run_resumable (m : Migrator σ) (w : World σ) (e : Err)
    (hids : (idsOf m.migrations).Nodup) (hempty : w.db.ledger = [])
    (hscan : m.config.Db.scanErr w = none) (hfail : (m.Run w).1 = Outcome.err e) :
    ∃ pre x post seg, m.migrations = pre ++ x :: post
      ∧ forwardFailed x e seg
      ∧ (m.Run w).2.ops = w.ops ++ [Op.scan none] ++ pre.flatMap forwardOk ++ seg
      ∧ (m.Run w).2.db.ledger = idsOf pre
      ∧ (m.Run w).2.db.ledger.length = pre.length
      ∧ forwardSet m.migrations (m.Run w).2.db.ledger = x :: post
      ∧ (∀ w2 : World σ, w2.db.ledger = (m.Run w).2.db.ledger →
          m.config.Db.scanErr w2 = none →
          (m.getMigrationsForRun w2).1 = Except.ok (x :: post)) := by
  have hall : forwardSet m.migrations w.db.ledger = m.migrations := by
    rw [hempty]
    unfold forwardSet
    simp
  rw [Run_eq m w hscan, hall] at hfail ⊢
  by_cases hlen : m.migrations.length = 0
  · rw [if_pos hlen] at hfail
    exact Outcome.noConfusion hfail
  · rw [if_neg hlen] at hfail ⊢
    rcases runList_migrate m m.migrations (seen (Op.scan none) w) with
      ⟨g1, _, _, _⟩ | ⟨pre, x, post, e2, seg, g0, g1, gseg, g2, _, g4, _⟩
    · rw [g1] at hfail
      exact Outcome.noConfusion hfail
    · rw [g1] at hfail
      cases hfail
      have hled : (runList m.migrateRunner m.migrations (seen (Op.scan none) w)).2.db.ledger
          = idsOf pre := by
        rw [g2]
        show w.db.ledger ++ idsOf pre = idsOf pre
        rw [hempty]
        rfl
      have hnext : forwardSet m.migrations (idsOf pre) = x :: post := by
        have h1 := filter_not_taken m.migrations hids pre.length
        have h2 : m.migrations.take pre.length = pre := by rw [g0]; simp
        have h3 : m.migrations.drop pre.length = x :: post := by rw [g0]; simp
        rw [h2, h3] at h1
        exact h1
      refine ⟨pre, x, post, seg, g0, gseg, by rw [g4]; rfl, hled, ?_, ?_, ?_⟩
      · rw [hled]; simp [idsOf]
      · rw [hled]; exact hnext
      · intro w2 hw2 hs2
        rw [getMigrationsForRun_ok m w2 hs2, hw2, hled, hnext]

/-- C8, on the sequence 0..4 whose unit 2 fails, with an empty ledger: `Run` fails,
the ledger holds [0, 1] and the next forward set is [2, 3, 4]. -/
theorem Run_resumable_witness :
    (idsOf brokenMigrator.migrations).Nodup
    ∧ (executedWorld []).db.ledger = []
    ∧ brokenMigrator.config.Db.scanErr (executedWorld []) = none
    ∧ (brokenMigrator.Run (executedWorld [])).1 = Outcome.err "syntax error"
    ∧ (∃ pre x post seg, brokenMigrator.migrations = pre ++ x :: post
      ∧ forwardFailed x "syntax error" seg
      ∧ (brokenMigrator.Run (executedWorld [])).2.ops
          = (executedWorld []).ops ++ [Op.scan none] ++ pre.flatMap forwardOk ++ seg
      ∧ (brokenMigrator.Run (executedWorld [])).2.db.ledger = idsOf pre
      ∧ (brokenMigrator.Run (executedWorld [])).2.db.ledger.length = pre.length
      ∧ forwardSet brokenMigrator.migrations (brokenMigrator.Run (executedWorld [])).2.db.ledger
          = x :: post
      ∧ (∀ w2 : World (List String),
          w2.db.ledger = (brokenMigrator.Run (executedWorld [])).2.db.ledger →
          brokenMigrator.config.Db.scanErr w2 = none →
          (brokenMigrator.getMigrationsForRun w2).1 = Except.ok (x :: post)))
    ∧ (brokenMigrator.Run (executedWorld [])).2.db
        = { data := ["execute migration_0", "execute migration_1"],
            ledger := ["migration_0", "migration_1"] }
    ∧ idsOf (forwardSet brokenMigrator.migrations
          (brokenMigrator.Run (executedWorld [])).2.db.ledger)
        = ["migration_2", "migration_3", "migration_4"] :=
  ⟨by decide, rfl, rfl, by decide,
    Run_resumable brokenMigrator (executedWorld []) "syntax error" (by decide) rfl rfl
      (by decide),
    by decide, by decide⟩

end GormMigrator

namespace GormMigrator

variable {σ : Type}

/-! ## Counting transactions -/

theorem count_begin_forwardOk (l : List (Migration σ)) :
    (l.flatMap forwardOk).count Op.begin = l.length := by
  induction l with
  | nil => rfl
  | cons a t ih =>
    rw [List.flatMap_cons, List.count_append, ih]
    simp [forwardOk, List.count_cons]
    omega

theorem count_commit_forwardOk (l : List (Migration σ)) :
    (l.flatMap forwardOk).count Op.commit = l.length := by
  induction l with
  | nil => rfl
  | cons a t ih =>
    rw [List.flatMap_cons, List.count_append, ih]
    simp [forwardOk, List.count_cons]
    omega

/-! ## Dry runs -/

theorem runList_migrateCheck (m : Migrator σ) (l : List (Migration σ)) :
    ∀ w : World σ, runList m.migrateCheckRunner l w
      = (Outcome.nil, { w with notes := w.notes ++ l.map executedNote }) := by
  induction l with
  | nil => intro w; simp [runList]
  | cons a t ih =>
    intro w
    simp [runList, Migrator.migrateCheckRunner, ih, Info, executedNote]

theorem runList_rollbackCheck (m : Migrator σ) (l : List (Migration σ)) :
    ∀ w : World σ, runList m.rollbackCheckRunner l w
      = (Outcome.nil, { w with notes := w.notes ++ l.map rolledBackNote }) := by
  induction l with
  | nil => intro w; simp [runList]
  | cons a t ih =>
    intro w
    simp [runList, Migrator.rollbackCheckRunner, ih, Info, rolledBackNote]

/-- C10: for every sequence, ledger, step and connection, `RunCheck`,
`RunStepCheck n` and `RollbackStepCheck n` leave the database (data and ledger) as
it was, and the only statement they send is the ledger read: no transaction is
opened and no forward or backward handler is called. -/
theorem check_no_effect (m : Migrator σ) (step : Int) (w : World σ) :
    ((m.RunCheck w).2.db = w.db
      ∧ (m.RunCheck w).2.ops = w.ops ++ [Op.scan (m.config.Db.scanErr w)])
    ∧ ((m.RunStepCheck step w).2.db = w.db
      ∧ (m.RunStepCheck step w).2.ops = w.ops ++ [Op.scan (m.config.Db.scanErr w)])
    ∧ ((m.RollbackStepCheck step w).2.db = w.db
      ∧ (m.RollbackStepCheck step w).2.ops = w.ops ++ [Op.scan (m.config.Db.scanErr w)]) := by
  cases hs : m.config.Db.scanErr w with
  | some e =>
    rw [RunCheck_error m w e hs, RunStepCheck_error m step w e hs,
      RollbackStepCheck_error m step w e hs]
    exact ⟨⟨rfl, rfl⟩, ⟨rfl, rfl⟩, ⟨rfl, rfl⟩⟩
  | none =>
    rw [RunCheck_eq m w hs, RunStepCheck_eq m step w hs, RollbackStepCheck_eq m step w hs]
    simp only [runList_migrateCheck, runList_rollbackCheck]
    refine ⟨?_, ?_, ?_⟩
    · split <;> exact ⟨rfl, rfl⟩
    · split <;> exact ⟨rfl, rfl⟩
    · split
      · exact ⟨rfl, rfl⟩
      · split <;> exact ⟨rfl, rfl⟩

end GormMigrator

namespace GormMigrator

variable {σ : Type}

/-! ## Dry runs against mutating runs -/

theorem notifiedIds_append (msg : String) (a b : List Note) :
    notifiedIds msg (a ++ b) = notifiedIds msg a ++ notifiedIds msg b := by
  simp [notifiedIds]

theorem notifiedIds_executed (l : List (Migration σ)) :
    notifiedIds migrationExecuted (l.map executedNote) = idsOf l := by
  induction l with
  | nil => rfl
  | cons a t ih =>
    have h : notifiedIds migrationExecuted (executedNote a :: t.map executedNote)
        = a.Id :: notifiedIds migrationExecuted (t.map executedNote) := by
      simp [notifiedIds, executedNote]
    rw [List.map_cons, h, ih]
    rfl

theorem notifiedIds_rolledBack (l : List (Migration σ)) :
    notifiedIds migrationRolledBack (l.map rolledBackNote) = idsOf l := by
  induction l with
  | nil => rfl
  | cons a t ih =>
    have h : notifiedIds migrationRolledBack (rolledBackNote a :: t.map rolledBackNote)
        = a.Id :: notifiedIds migrationRolledBack (t.map rolledBackNote) := by
      simp [notifiedIds, rolledBackNote]
    rw [List.map_cons, h, ih]
    rfl

theorem forwardCalls_forwardOk (l : List (Migration σ)) :
    forwardCalls (l.flatMap forwardOk) = idsOf l := by
  induction l with
  | nil => rfl
  | cons a t ih =>
    have h : forwardCalls ((a :: t).flatMap forwardOk)
        = a.Id :: forwardCalls (t.flatMap forwardOk) := by
      simp [forwardCalls, forwardOk]
    rw [h, ih]
    rfl

theorem backwardCalls_backwardOk (l : List (Migration σ)) :
    backwardCalls (l.flatMap backwardOk) = idsOf l := by
  induction l with
  | nil => rfl
  | cons a t ih =>
    have h : backwardCalls ((a :: t).flatMap backwardOk)
        = a.Id :: backwardCalls (t.flatMap backwardOk) := by
      simp [backwardCalls, backwardOk]
    rw [h, ih]
    rfl

end GormMigrator

namespace GormMigrator

variable {σ : Type}

theorem notifiedIds_noAvailable (msg : String) :
    notifiedIds msg [noAvailableNote] = [] := by
  simp [notifiedIds, noAvailableNote]

/-- What a call that only notifies `no available migrations` leaves to observe. -/
theorem noAvailable_observed (msg : String) (w : World σ) :
    notifiedIds msg
        ((Info noAvailableMigrations [] (seen (Op.scan none) w)).notes.drop w.notes.length) = []
    ∧ forwardCalls
        ((Info noAvailableMigrations [] (seen (Op.scan none) w)).ops.drop w.ops.length) = []
    ∧ backwardCalls
        ((Info noAvailableMigrations [] (seen (Op.scan none) w)).ops.drop w.ops.length) = [] := by
  have hn : (Info noAvailableMigrations [] (seen (Op.scan none) w)).notes
      = w.notes ++ [noAvailableNote] := rfl
  have ho : (Info noAvailableMigrations [] (seen (Op.scan none) w)).ops
      = w.ops ++ [Op.scan none] := rfl
  rw [hn, ho, List.drop_left, List.drop_left, notifiedIds_noAvailable]
  exact ⟨rfl, rfl, rfl⟩

/-- What a call that only tried to read the ledger leaves to observe. -/
theorem scan_observed (msg : String) (r : Option Err) (w : World σ) :
    notifiedIds msg ((seen (Op.scan r) w).notes.drop w.notes.length) = []
    ∧ forwardCalls ((seen (Op.scan r) w).ops.drop w.ops.length) = []
    ∧ backwardCalls ((seen (Op.scan r) w).ops.drop w.ops.length) = [] := by
  have hn : (seen (Op.scan r) w).notes = w.notes := rfl
  have ho : (seen (Op.scan r) w).ops = w.ops ++ [Op.scan r] := rfl
  rw [hn, ho, List.drop_left, List.drop_length]
  exact ⟨rfl, rfl, rfl⟩

end GormMigrator

namespace GormMigrator

variable {σ : Type}

/-! ## Step zero of the backward operations -/

/-- C12, as amended: for every sequence and every ledger that can be read,
`RollbackStepCheck 0` returns nil; when the backward set is not empty it notifies
nothing (it only reads the ledger), and when the backward set is empty it notifies
`no available migrations`, the test of the step coming after that of the set. -/
theorem RollbackStepCheck_zero (m : Migrator σ) (w : World σ)
    (hscan : m.config.Db.scanErr w = none) :
    (m.RollbackStepCheck 0 w).1 = Outcome.nil
    ∧ (backwardSet m.migrations w.db.ledger ≠ [] →
        m.RollbackStepCheck 0 w = (Outcome.nil, seen (Op.scan none) w)
        ∧ (m.RollbackStepCheck 0 w).2.notes = w.notes)
    ∧ (backwardSet m.migrations w.db.ledger = [] →
        (m.RollbackStepCheck 0 w).2.notes = w.notes ++ [noAvailableNote]) := by
  rw [RollbackStepCheck_eq m 0 w hscan]
  by_cases hempty : (backwardSet m.migrations w.db.ledger).length = 0
  · rw [if_pos hempty]
    refine ⟨rfl, ?_, fun _ => rfl⟩
    intro hne
    exact absurd (List.length_eq_zero.mp hempty) hne
  · rw [if_neg hempty, if_pos rfl]
    refine ⟨rfl, fun _ => ⟨rfl, rfl⟩, ?_⟩
    intro hnil
    rw [hnil] at hempty
    exact absurd rfl hempty

/-- C12, on the input of `Test_Migrator_RollbackStepCheck`: with all five units
recorded `RollbackStepCheck 0` notifies nothing. -/
theorem RollbackStepCheck_zero_witness :
    testMigrator.config.Db.scanErr worldAll = none
    ∧ (testMigrator.RollbackStepCheck 0 worldAll).1 = Outcome.nil
    ∧ (testMigrator.RollbackStepCheck 0 worldAll).2.notes = [] :=
  ⟨rfl, (RollbackStepCheck_zero testMigrator worldAll rfl).1, by decide⟩

/-- C12 as stated fails on an empty ledger: `RollbackStepCheck 0` then notifies
`no available migrations`. -/
theorem RollbackStepCheck_zero_counterexample :
    testMigrator.config.Db.scanErr (executedWorld []) = none
    ∧ (testMigrator.RollbackStepCheck 0 (executedWorld [])).2.notes = [noAvailableNote]
    ∧ ¬ ((testMigrator.RollbackStepCheck 0 (executedWorld [])).1 = Outcome.nil
        ∧ (testMigrator.RollbackStepCheck 0 (executedWorld [])).2.notes
            = (executedWorld []).notes) := by
  refine ⟨rfl, by decide, ?_⟩
  decide

/-- C13, as amended: for every sequence and every ledger that can be read,
`RollbackStep 0` returns nil, calls no backward handler, opens no transaction and
leaves the database as it was; it passes the same test of an empty set as `Run`:
when the backward set is not empty it notifies nothing, and when it is empty it
notifies `no available migrations`. -/
theorem RollbackStep_zero (m : Migrator σ) (w : World σ)
    (hscan : m.config.Db.scanErr w = none) :
    (m.RollbackStep 0 w).1 = Outcome.nil
    ∧ (m.RollbackStep 0 w).2.db = w.db
    ∧ (m.RollbackStep 0 w).2.ops = w.ops ++ [Op.scan none]
    ∧ (backwardSet m.migrations w.db.ledger ≠ [] →
        (m.RollbackStep 0 w).2.notes = w.notes)
    ∧ (backwardSet m.migrations w.db.ledger = [] →
        (m.RollbackStep 0 w).2.notes = w.notes ++ [noAvailableNote]) := by
  rw [RollbackStep_eq m 0 w hscan]
  by_cases hempty : (backwardSet m.migrations w.db.ledger).length = 0
  · rw [if_pos hempty]
    refine ⟨rfl, rfl, rfl, ?_, fun _ => rfl⟩
    intro hne
    exact absurd (List.length_eq_zero.mp hempty) hne
  · rw [if_neg hempty]
    have h0 : (0 : Int).toNat = 0 := rfl
    rw [h0, List.take_zero]
    refine ⟨rfl, rfl, rfl, fun _ => rfl, ?_⟩
    intro hnil
    rw [hnil] at hempty
    exact absurd rfl hempty

/-- C13, on the input of `Test_Migrator_RollbackStep`: with all five units
recorded `RollbackStep 0` changes and notifies nothing. -/
theorem RollbackStep_zero_witness :
    testMigrator.config.Db.scanErr worldAll = none
    ∧ (testMigrator.RollbackStep 0 worldAll).1 = Outcome.nil
    ∧ (testMigrator.RollbackStep 0 worldAll).2.db = worldAll.db
    ∧ (testMigrator.RollbackStep 0 worldAll).2.notes = [] :=
  ⟨rfl, (RollbackStep_zero testMigrator worldAll rfl).1,
    (RollbackStep_zero testMigrator worldAll rfl).2.1, by decide⟩

/-- C13 as stated fails on an empty ledger: `RollbackStep 0` passes the test of an
empty set and notifies `no available migrations`. -/
theorem RollbackStep_zero_counterexample :
    testMigrator.config.Db.scanErr (executedWorld []) = none
    ∧ (testMigrator.RollbackStep 0 (executedWorld [])).2.notes = [noAvailableNote]
    ∧ ¬ ((testMigrator.RollbackStep 0 (executedWorld [])).1 = Outcome.nil
        ∧ (testMigrator.RollbackStep 0 (executedWorld [])).2.notes
            = (executedWorld []).notes) := by
  refine ⟨rfl, by decide, ?_⟩
  decide

end GormMigrator

namespace GormMigrator

variable {σ : Type}

/-! ## Notifications -/

theorem reports_migrate (m : Migrator σ) (l : List (Migration σ)) (w : World σ) :
    Reports forwardOk forwardFailed executedNote l w (runList m.migrateRunner l w) := by
  rcases runList_migrate m l w with ⟨g1, _, g3, g4⟩ |
    ⟨pre, x, post, e, seg, g0, g1, gseg, _, g3, g4, _⟩
  · exact Or.inl ⟨g1, g3, g4⟩
  · exact Or.inr ⟨pre, x, post, e, seg, g0, gseg, g1, g3, g4⟩

theorem reports_rollback (m : Migrator σ) (l : List (Migration σ)) (w : World σ) :
    Reports backwardOk backwardFailed rolledBackNote l w (runList m.rollbackRunner l w) := by
  rcases runList_rollback m l w with ⟨g1, _, g3, g4⟩ |
    ⟨pre, x, post, e, seg, g0, g1, gseg, _, g3, g4, _⟩
  · exact Or.inl ⟨g1, g3, g4⟩
  · exact Or.inr ⟨pre, x, post, e, seg, g0, gseg, g1, g3, g4⟩

/-- C15: in `Run`, `RunStep n` and `RollbackStep n`, once the ledger is read and
the candidate set is not empty, the notifications follow the processing order:
one `migration executed` (resp. `migration rolled back`) at info level with the
id of each unit that commits; if a unit fails with `e`, one `migration failed` at
info level with its id and `e` comes last, nothing is notified after it, and the
call returns `e`. -/
theorem notifications_report (m : Migrator σ) (step : Int) (w : World σ)
    (hscan : m.config.Db.scanErr w = none) :
    (forwardSet m.migrations w.db.ledger ≠ [] →
      Reports forwardOk forwardFailed executedNote
          (forwardSet m.migrations w.db.ledger) (seen (Op.scan none) w) (m.Run w)
      ∧ Reports forwardOk forwardFailed executedNote
          ((forwardSet m.migrations w.db.ledger).take step.toNat)
          (seen (Op.scan none) w) (m.RunStep step w))
    ∧ (backwardSet m.migrations w.db.ledger ≠ [] →
      Reports backwardOk backwardFailed rolledBackNote
          ((backwardSet m.migrations w.db.ledger).reverse.take step.toNat)
          (seen (Op.scan none) w) (m.RollbackStep step w))
    ∧ (∀ (x : Migration σ) (e : Err),
        executedNote x = Note.mk Level.info "migration executed" [Arg.str "id", Arg.str x.Id]
        ∧ rolledBackNote x
            = Note.mk Level.info "migration rolled back" [Arg.str "id", Arg.str x.Id]
        ∧ failedNote x e = Note.mk Level.info "migration failed"
            [Arg.str "id", Arg.str x.Id, Arg.str "err", Arg.err e]) := by
  refine ⟨?_, ?_, fun _ _ => ⟨rfl, rfl, rfl⟩⟩
  · intro hne
    have hlen : ¬ (forwardSet m.migrations w.db.ledger).length = 0 := by
      simpa using hne
    rw [Run_eq m w hscan, RunStep_eq m step w hscan, if_neg hlen, if_neg hlen]
    exact ⟨reports_migrate m _ _, reports_migrate m _ _⟩
  · intro hne
    have hlen : ¬ (backwardSet m.migrations w.db.ledger).length = 0 := by
      simpa using hne
    rw [RollbackStep_eq m step w hscan, if_neg hlen]
    exact reports_rollback m _ _

/-- C15, on the sequence 0..4 whose unit 2 fails, with an empty ledger: `Run`
notifies `migration executed` for 0 and 1, then `migration failed` for 2 with the
error it returns. -/
theorem notifications_report_witness :
    brokenMigrator.config.Db.scanErr (executedWorld []) = none
    ∧ forwardSet brokenMigrator.migrations (executedWorld []).db.ledger ≠ []
    ∧ Reports forwardOk forwardFailed executedNote
        (forwardSet brokenMigrator.migrations (executedWorld []).db.ledger)
        (seen (Op.scan none) (executedWorld [])) (brokenMigrator.Run (executedWorld []))
    ∧ (brokenMigrator.Run (executedWorld [])).1 = Outcome.err "syntax error"
    ∧ (brokenMigrator.Run (executedWorld [])).2.notes
        = [Note.mk Level.info "migration executed" [Arg.str "id", Arg.str "migration_0"],
           Note.mk Level.info "migration executed" [Arg.str "id", Arg.str "migration_1"],
           Note.mk Level.info "migration failed"
             [Arg.str "id", Arg.str "migration_2", Arg.str "err", Arg.err "syntax error"]] :=
  ⟨rfl, fun h => absurd (congrArg List.length h) (by decide),
    ((notifications_report brokenMigrator 0 (executedWorld []) rfl).1
      (fun h => absurd (congrArg List.length h) (by decide))).1,
    by decide, by decide⟩

/-! ## When the ledger cannot be read, or nothing is left to do -/

/-- C16: for each of the six public operations and every step, if reading the
ledger fails with `e` the operation returns `e`, notifies nothing, and sends
nothing but the failed read: no handler is called, no transaction is opened and
the database is unchanged. -/
theorem ledger_read_error (m : Migrator σ) (step : Int) (w : World σ) (e : Err)
    (h : m.config.Db.scanErr w = some e) :
    OnlyReadError e w (m.Run w)
    ∧ OnlyReadError e w (m.RunCheck w)
    ∧ OnlyReadError e w (m.RunStep step w)
    ∧ OnlyReadError e w (m.RunStepCheck step w)
    ∧ OnlyReadError e w (m.RollbackStep step w)
    ∧ OnlyReadError e w (m.RollbackStepCheck step w) := by
  rw [Run_error m w e h, RunCheck_error m w e h, RunStep_error m step w e h,
    RunStepCheck_error m step w e h, RollbackStep_error m step w e h,
    RollbackStepCheck_error m step w e h]
  exact ⟨⟨rfl, rfl, rfl, rfl⟩, ⟨rfl, rfl, rfl, rfl⟩, ⟨rfl, rfl, rfl, rfl⟩,
    ⟨rfl, rfl, rfl, rfl⟩, ⟨rfl, rfl, rfl, rfl⟩, ⟨rfl, rfl, rfl, rfl⟩⟩

/-- C16, on a connection that is down: `Run` and `RollbackStep 2` return the error
of the read and do nothing else. -/
theorem ledger_read_error_witness :
    downMigrator.config.Db.scanErr world02 = some "connection refused"
    ∧ OnlyReadError "connection refused" world02 (downMigrator.Run world02)
    ∧ OnlyReadError "connection refused" world02 (downMigrator.RollbackStep 2 world02)
    ∧ downMigrator.Run world02
        = (Outcome.err "connection refused",
            { db := world02.db, notes := [], ops := [Op.scan (some "connection refused")] }) :=
  ⟨rfl, (ledger_read_error downMigrator 2 world02 "connection refused" rfl).1,
    (ledger_read_error downMigrator 2 world02 "connection refused" rfl).2.2.2.2.1,
    by decide⟩

/-- C17: for every step, once the ledger is read: when the forward set is empty,
`Run`, `RunCheck`, `RunStep` and `RunStepCheck` return nil after exactly one
notification, `no available migrations` at info level with no fields; when the
backward set is empty, `RollbackStep` and `RollbackStepCheck` do the same; no
handler is called, no transaction is opened, the database is unchanged. -/
theorem nothing_available (m : Migrator σ) (step : Int) (w : World σ)
    (hscan : m.config.Db.scanErr w = none) :
    (forwardSet m.migrations w.db.ledger = [] →
      OnlyNoAvailable w (m.Run w)
      ∧ OnlyNoAvailable w (m.RunCheck w)
      ∧ OnlyNoAvailable w (m.RunStep step w)
      ∧ OnlyNoAvailable w (m.RunStepCheck step w))
    ∧ (backwardSet m.migrations w.db.ledger = [] →
      OnlyNoAvailable w (m.RollbackStep step w)
      ∧ OnlyNoAvailable w (m.RollbackStepCheck step w)) := by
  refine ⟨?_, ?_⟩
  · intro hnil
    have hlen : (forwardSet m.migrations w.db.ledger).length = 0 := by rw [hnil]; rfl
    rw [Run_eq m w hscan, RunCheck_eq m w hscan, RunStep_eq m step w hscan,
      RunStepCheck_eq m step w hscan]
    simp only [if_pos hlen]
    exact ⟨⟨rfl, rfl, rfl, rfl⟩, ⟨rfl, rfl, rfl, rfl⟩, ⟨rfl, rfl, rfl, rfl⟩,
      ⟨rfl, rfl, rfl, rfl⟩⟩
  · intro hnil
    have hlen : (backwardSet m.migrations w.db.ledger).length = 0 := by rw [hnil]; rfl
    rw [RollbackStep_eq m step w hscan, RollbackStepCheck_eq m step w hscan]
    simp only [if_pos hlen]
    exact ⟨⟨rfl, rfl, rfl, rfl⟩, ⟨rfl, rfl, rfl, rfl⟩⟩

/-- C17, on the inputs of `Test_Migrator_RollbackStep` and
`Test_Migrator_RollbackStepCheck`: with an empty ledger and step 2 both notify
`no available migrations` and nothing else happens. -/
theorem nothing_available_witness :
    testMigrator.config.Db.scanErr (executedWorld []) = none
    ∧ backwardSet testMigrator.migrations (executedWorld []).db.ledger = []
    ∧ OnlyNoAvailable (executedWorld []) (testMigrator.RollbackStep 2 (executedWorld []))
    ∧ OnlyNoAvailable (executedWorld []) (testMigrator.RollbackStepCheck 2 (executedWorld []))
    ∧ testMigrator.RollbackStep 2 (executedWorld [])
        = (Outcome.nil,
            { db := (executedWorld []).db,
              notes := [Note.mk Level.info "no available migrations" []],
              ops := [Op.scan none] }) :=
  ⟨rfl, rfl, ((nothing_available testMigrator 2 (executedWorld []) rfl).2 rfl).1,
    ((nothing_available testMigrator 2 (executedWorld []) rfl).2 rfl).2, by decide⟩

end GormMigrator

namespace GormMigrator

variable {σ : Type}

/-! ## Construction -/

/-- C18: `NewMigrator` creates the table named as configured, or `migrations` when
the configured name is empty.  It returns an error and no `Migrator` exactly when
that creation fails, the error being the one of the creation; otherwise it returns
nil and a `Migrator` that holds the sequence as supplied and that table name. -/
theorem NewMigrator_spec (migrations : List (Migration σ)) (config : Config σ) (w : World σ) :
    (∀ e, config.Db.createErr (if config.Table = "" then "migrations" else config.Table) w
          = some e →
      (NewMigrator migrations config w).1 = (none, Outcome.err e))
    ∧ (config.Db.createErr (if config.Table = "" then "migrations" else config.Table) w = none →
      ∃ m, (NewMigrator migrations config w).1 = (some m, Outcome.nil)
        ∧ m.migrations = migrations
        ∧ m.config.Table = (if config.Table = "" then "migrations" else config.Table))
    ∧ (((NewMigrator migrations config w).1.1.isNone = true
        ∧ (NewMigrator migrations config w).1.2 ≠ Outcome.nil)
      ↔ (config.Db.createErr
          (if config.Table = "" then "migrations" else config.Table) w).isSome = true) := by
  by_cases ht : config.Table = ""
  · by_cases hl : config.Logger = none
    · cases hc : config.Db.createErr "migrations" w <;>
        simp [NewMigrator, Migrator.createMigrationTable, defaultMigrationTableName, ht, hl, hc]
    · cases hc : config.Db.createErr "migrations" w <;>
        simp [NewMigrator, Migrator.createMigrationTable, defaultMigrationTableName, ht, hl, hc]
  · by_cases hl : config.Logger = none
    · cases hc : config.Db.createErr config.Table w <;>
        simp [NewMigrator, Migrator.createMigrationTable, defaultMigrationTableName, ht, hl, hc]
    · cases hc : config.Db.createErr config.Table w <;>
        simp [NewMigrator, Migrator.createMigrationTable, defaultMigrationTableName, ht, hl, hc]

/-- C18, on the connection of the tests with no table name, and on one whose
table creation fails. -/
theorem NewMigrator_spec_witness :
    sqlmockHandle.createErr (if "" = "" then "migrations" else "") (executedWorld []) = none
    ∧ (∃ m, (NewMigrator createTestMigrations
          { Db := sqlmockHandle, Table := "", Logger := none } (executedWorld [])).1
          = (some m, Outcome.nil)
        ∧ m.migrations = createTestMigrations
        ∧ m.config.Table = (if "" = "" then "migrations" else ""))
    ∧ (NewMigrator createTestMigrations
          { Db := downHandle, Table := "migrations_table", Logger := none }
          (executedWorld [])).1.2 = Outcome.err "connection refused" :=
  ⟨rfl,
    (NewMigrator_spec createTestMigrations
      { Db := sqlmockHandle, Table := "", Logger := none } (executedWorld [])).2.1 rfl,
    by decide⟩

/-! ## The ledger only grows at its end or loses entries -/

theorem check_effect_free (m : Migrator σ) (step : Int) (w : World σ) :
    (m.RunCheck w).2.db = w.db
    ∧ (m.RunStepCheck step w).2.db = w.db
    ∧ (m.RollbackStepCheck step w).2.db = w.db := by
  cases hs : m.config.Db.scanErr w with
  | some e =>
    rw [RunCheck_error m w e hs, RunStepCheck_error m step w e hs,
      RollbackStepCheck_error m step w e hs]
    exact ⟨rfl, rfl, rfl⟩
  | none =>
    rw [RunCheck_eq m w hs, RunStepCheck_eq m step w hs, RollbackStepCheck_eq m step w hs]
    simp only [runList_migrateCheck, runList_rollbackCheck]
    refine ⟨?_, ?_, ?_⟩
    · split <;> rfl
    · split <;> rfl
    · split
      · rfl
      · split <;> rfl

/-- C19: whatever the outcome (nil, a failing unit, a ledger that cannot be read),
after `Run` and `RunStep` the ledger is the previous ledger with entries added at
its end; after `RollbackStep` it is a sub-list of the previous ledger, so the
entries that remain keep their values and their relative order; the three dry
runs leave it as it was. -/
theorem ledger_order (m : Migrator σ) (step : Int) (w : World σ) :
    (∃ s, (m.Run w).2.db.ledger = w.db.ledger ++ s)
    ∧ (∃ s, (m.RunStep step w).2.db.ledger = w.db.ledger ++ s)
    ∧ ((m.RollbackStep step w).2.db.ledger).Sublist w.db.ledger
    ∧ (m.RunCheck w).2.db.ledger = w.db.ledger
    ∧ (m.RunStepCheck step w).2.db.ledger = w.db.ledger
    ∧ (m.RollbackStepCheck step w).2.db.ledger = w.db.ledger := by
  have hc := check_effect_free m step w
  refine ⟨?_, ?_, ?_, by rw [hc.1], by rw [hc.2.1], by rw [hc.2.2]⟩
  · cases hs : m.config.Db.scanErr w with
    | some e => rw [Run_error m w e hs]; exact ⟨[], by simp [seen]⟩
    | none =>
      rw [Run_eq m w hs]
      split
      · exact ⟨[], by simp [seen, Info]⟩
      · rcases runList_migrate m (forwardSet m.migrations w.db.ledger)
          (seen (Op.scan none) w) with ⟨_, g2, _, _⟩ | ⟨pre, _, _, _, _, _, _, _, g2, _, _, _⟩
        · exact ⟨_, by rw [g2]; rfl⟩
        · exact ⟨_, by rw [g2]; rfl⟩
  · cases hs : m.config.Db.scanErr w with
    | some e => rw [RunStep_error m step w e hs]; exact ⟨[], by simp [seen]⟩
    | none =>
      rw [RunStep_eq m step w hs]
      split
      · exact ⟨[], by simp [seen, Info]⟩
      · rcases runList_migrate m ((forwardSet m.migrations w.db.ledger).take step.toNat)
          (seen (Op.scan none) w) with ⟨_, g2, _, _⟩ | ⟨pre, _, _, _, _, _, _, _, g2, _, _, _⟩
        · exact ⟨_, by rw [g2]; rfl⟩
        · exact ⟨_, by rw [g2]; rfl⟩
  · cases hs : m.config.Db.scanErr w with
    | some e => rw [RollbackStep_error m step w e hs]; exact List.Sublist.refl _
    | none =>
      rw [RollbackStep_eq m step w hs]
      split
      · exact List.Sublist.refl _
      · rcases runList_rollback m
          ((backwardSet m.migrations w.db.ledger).reverse.take step.toNat)
          (seen (Op.scan none) w) with ⟨_, g2, _, _⟩ | ⟨pre, _, _, _, _, _, _, _, g2, _, _, _⟩
        · rw [g2]; exact List.filter_sublist _
        · rw [g2]; exact List.filter_sublist _

end GormMigrator

namespace GormMigrator

variable {σ : Type}

/-! ## Ledgers that record a start of the sequence -/

theorem filter_taken (l : List (Migration σ)) (h : (idsOf l).Nodup) :
    ∀ k : Nat, l.filter (fun x => decide (x.Id ∈ idsOf (l.take k))) = l.take k := by
  induction l with
  | nil => intro k; simp
  | cons a t ih =>
    intro k
    cases k with
    | zero => simp [idsOf]
    | succ k =>
      have hn : a.Id ∉ idsOf t ∧ (idsOf t).Nodup := by
        simpa [idsOf] using h
      have hrest : t.filter (fun x => decide (x.Id ∈ idsOf ((a :: t).take (k + 1))))
          = t.filter (fun x => decide (x.Id ∈ idsOf (t.take k))) := by
        apply List.filter_congr
        intro x hx
        have hne : x.Id ≠ a.Id := by
          intro he
          apply hn.1
          rw [← he]
          exact List.mem_map_of_mem _ hx
        simp [idsOf, hne]
      rw [List.filter_cons, hrest, ih hn.2 k]
      simp [idsOf]

/-- When the recorded ids of the sequence are those of its first `k` units, the
backward set is these units and the forward set is the rest. -/
theorem sets_of_recorded_start (migrations : List (Migration σ)) (ledger : List String)
    (k : Nat) (hids : (idsOf migrations).Nodup)
    (hpre : ∀ x ∈ migrations, (x.Id ∈ ledger ↔ x.Id ∈ idsOf (migrations.take k))) :
    backwardSet migrations ledger = migrations.take k
    ∧ forwardSet migrations ledger = migrations.drop k := by
  constructor
  · rw [← filter_taken migrations hids k]
    unfold backwardSet
    apply List.filter_congr
    intro x hx
    simp only [decide_eq_decide]
    exact hpre x hx
  · rw [← filter_not_taken migrations hids k]
    unfold forwardSet
    apply List.filter_congr
    intro x hx
    simp only [decide_eq_decide, not_iff_not]
    exact hpre x hx

/-- After the first `n` units of the forward set are recorded, the backward set is
the old one followed by these units. -/
theorem backwardSet_after_step (migrations : List (Migration σ)) (ledger : List String)
    (k n : Nat) (hids : (idsOf migrations).Nodup)
    (hpre : ∀ x ∈ migrations, (x.Id ∈ ledger ↔ x.Id ∈ idsOf (migrations.take k))) :
    backwardSet migrations
        (ledger ++ idsOf ((forwardSet migrations ledger).take n))
      = backwardSet migrations ledger ++ (forwardSet migrations ledger).take n := by
  have hs := sets_of_recorded_start migrations ledger k hids hpre
  have hfsnodup := idsOf_forwardSet_nodup migrations ledger hids
  have hsplit : migrations = backwardSet migrations ledger
      ++ ((forwardSet migrations ledger).take n ++ (forwardSet migrations ledger).drop n) := by
    rw [List.take_append_drop, hs.1, hs.2, List.take_append_drop]
  have hb : ∀ x ∈ backwardSet migrations ledger, x.Id ∈ ledger := by
    intro x hx
    simpa using (List.mem_filter.mp hx).2
  have hf : ∀ x ∈ forwardSet migrations ledger, x.Id ∉ ledger := by
    intro x hx
    simpa using (List.mem_filter.mp hx).2
  have hrest : ∀ x ∈ (forwardSet migrations ledger).drop n,
      x.Id ∉ idsOf ((forwardSet migrations ledger).take n) := by
    intro x hx
    have := filter_not_taken (forwardSet migrations ledger) hfsnodup n
    rw [← this] at hx
    simpa using (List.mem_filter.mp hx).2
  have h1 : (backwardSet migrations ledger).filter (fun x => decide (x.Id ∈
      ledger ++ idsOf ((forwardSet migrations ledger).take n)))
      = backwardSet migrations ledger := by
    rw [List.filter_eq_self]
    intro x hx
    simp [hb x hx]
  have h2 : ((forwardSet migrations ledger).take n).filter (fun x => decide (x.Id ∈
      ledger ++ idsOf ((forwardSet migrations ledger).take n)))
      = (forwardSet migrations ledger).take n := by
    rw [List.filter_eq_self]
    intro x hx
    have : x.Id ∈ idsOf ((forwardSet migrations ledger).take n) := List.mem_map_of_mem _ hx
    simp [this]
  have h3 : ((forwardSet migrations ledger).drop n).filter (fun x => decide (x.Id ∈
      ledger ++ idsOf ((forwardSet migrations ledger).take n))) = [] := by
    rw [List.filter_eq_nil_iff]
    intro x hx
    have ha := hf x (List.mem_of_mem_drop hx)
    have hb2 := hrest x hx
    simp [ha, hb2]
  have hgoal : backwardSet migrations
      (ledger ++ idsOf ((forwardSet migrations ledger).take n))
      = (backwardSet migrations ledger
          ++ ((forwardSet migrations ledger).take n
            ++ (forwardSet migrations ledger).drop n)).filter (fun x => decide (x.Id ∈
              ledger ++ idsOf ((forwardSet migrations ledger).take n))) := by
    rw [← hsplit]
    rfl
  rw [hgoal, List.filter_append, List.filter_append, h1, h2, h3, List.append_nil]

end GormMigrator

namespace GormMigrator

theorem world01_records_start :
    ∀ x ∈ testMigrator.migrations,
      (x.Id ∈ world01.db.ledger ↔ x.Id ∈ idsOf (testMigrator.migrations.take 2)) := by
  intro x hx
  simp only [testMigrator, createTestMigrations, List.map_cons, List.map_nil,
    List.mem_cons, List.mem_singleton, List.not_mem_nil, or_false] at hx
  rcases hx with h | h | h | h | h <;> subst h <;> decide

end GormMigrator

namespace GormMigrator

variable {σ : Type}

/-! ## The two sets split the sequence -/

theorem backwardSet_eq_filter_not (migrations : List (Migration σ)) (ledger : List String) :
    backwardSet migrations ledger
      = migrations.filter (fun x => !decide (x.Id ∉ ledger)) := by
  unfold backwardSet
  apply List.filter_congr
  intro x _
  by_cases h : x.Id ∈ ledger <;> simp [h]

/-- C21: whenever the ledger can be read (as nil or not), `getMigrationsForRun`
and `getMigrationsForRollback` split the sequence: going through the sequence in
order, each unit goes to the first result when its id is not in the ledger and to
the second otherwise, so every position is in exactly one of them; their lengths
add up to the length of the sequence, each is a sub-list of the sequence in
sequence order, and together they hold the units of the sequence. -/
theorem sets_partition (m : Migrator σ) (w : World σ)
    (hscan : m.config.Db.scanErr w = none) :
    (m.getMigrationsForRun w).1 = Except.ok (forwardSet m.migrations w.db.ledger)
    ∧ (m.getMigrationsForRollback w).1 = Except.ok (backwardSet m.migrations w.db.ledger)
    ∧ m.migrations.partition (fun x => decide (x.Id ∉ w.db.ledger))
        = (forwardSet m.migrations w.db.ledger, backwardSet m.migrations w.db.ledger)
    ∧ (forwardSet m.migrations w.db.ledger).length
        + (backwardSet m.migrations w.db.ledger).length = m.migrations.length
    ∧ (forwardSet m.migrations w.db.ledger).Sublist m.migrations
    ∧ (backwardSet m.migrations w.db.ledger).Sublist m.migrations
    ∧ (forwardSet m.migrations w.db.ledger
        ++ backwardSet m.migrations w.db.ledger).Perm m.migrations := by
  refine ⟨by rw [getMigrationsForRun_ok m w hscan],
    by rw [getMigrationsForRollback_ok m w hscan], ?_, ?_, ?_, ?_, ?_⟩
  · rw [List.partition_eq_filter_filter, backwardSet_eq_filter_not]
    rfl
  · rw [backwardSet_eq_filter_not]
    exact (List.length_eq_length_filter_add _).symm
  · exact List.filter_sublist _
  · exact List.filter_sublist _
  · rw [backwardSet_eq_filter_not]
    exact List.filter_append_perm _ _

/-- C21, on the sequence 0..4 with the ledger [0, 2]: the forward set is
[1, 3, 4] and the backward set [0, 2]. -/
theorem sets_partition_witness :
    testMigrator.config.Db.scanErr world02 = none
    ∧ (forwardSet testMigrator.migrations world02.db.ledger).length
        + (backwardSet testMigrator.migrations world02.db.ledger).length
        = testMigrator.migrations.length
    ∧ okIds (testMigrator.getMigrationsForRun world02).1
        = some ["migration_1", "migration_3", "migration_4"]
    ∧ okIds (testMigrator.getMigrationsForRollback world02).1
        = some ["migration_0", "migration_2"] :=
  ⟨rfl, (sets_partition testMigrator world02 rfl).2.2.2.1, by decide, by decide⟩

end GormMigrator

namespace GormMigrator

variable {σ : Type}

/-! ## No entry is recorded twice -/

theorem deletes_backwardOk (l : List (Migration σ)) :
    deletes (l.flatMap backwardOk) = idsOf l := by
  induction l with
  | nil => rfl
  | cons a t ih =>
    have h : deletes ((a :: t).flatMap backwardOk)
        = a.Id :: deletes (t.flatMap backwardOk) := by
      simp [deletes, backwardOk]
    rw [h, ih]
    rfl

theorem deletes_append (a b : List Op) : deletes (a ++ b) = deletes a ++ deletes b := by
  simp [deletes]

theorem deletes_backwardFailed (x : Migration σ) (e : Err) (seg : List Op)
    (h : backwardFailed x e seg) : deletes seg = [] := by
  rcases h with h | h <;> subst h <;> rfl

theorem idsOf_sublist (a b : List (Migration σ)) (h : a.Sublist b) :
    (idsOf a).Sublist (idsOf b) :=
  List.Sublist.map _ h

/-- Recording units of the forward set keeps a ledger free of duplicates. -/
theorem nodup_append_forward (migrations : List (Migration σ)) (ledger : List String)
    (hids : (idsOf migrations).Nodup) (hl : ledger.Nodup) (pre : List (Migration σ))
    (hpre : pre.Sublist (forwardSet migrations ledger)) :
    (ledger ++ idsOf pre).Nodup := by
  apply List.Nodup.append hl
  · exact List.Nodup.sublist (idsOf_sublist _ _ hpre) (idsOf_forwardSet_nodup _ _ hids)
  · rw [List.disjoint_left]
    intro a ha hmem
    rcases List.mem_map.mp hmem with ⟨x, hx, hxa⟩
    have hxf : x ∈ forwardSet migrations ledger := hpre.subset hx
    have hnot : x.Id ∉ ledger := by
      simpa using (List.mem_filter.mp hxf).2
    exact hnot (by rw [hxa]; exact ha)

/-- Removing distinct recorded ids from a ledger free of duplicates removes as
many entries as there are ids. -/
theorem length_filter_removed (ledger ids : List String) (hl : ledger.Nodup)
    (hi : ids.Nodup) (hsub : ∀ a ∈ ids, a ∈ ledger) :
    (ledger.filter (fun y => decide (y ∉ ids))).length + ids.length = ledger.length := by
  have hperm : (ledger.filter (fun y => decide (y ∈ ids))).Perm ids := by
    rw [List.perm_ext_iff_of_nodup (List.Nodup.filter _ hl) hi]
    intro a
    simp only [List.mem_filter, decide_eq_true_eq]
    exact ⟨fun h => h.2, fun h => ⟨hsub a h, h⟩⟩
  have hsplit := List.length_eq_length_filter_add (fun y => decide (y ∈ ids)) (l := ledger)
  have hfil : ledger.filter (fun y => !decide (y ∈ ids))
      = ledger.filter (fun y => decide (y ∉ ids)) := by
    apply List.filter_congr
    intro y _
    by_cases h : y ∈ ids <;> simp [h]
  rw [hfil, hperm.length_eq] at hsplit
  omega

end GormMigrator

namespace GormMigrator

variable {σ : Type}

/-- Rolling back distinct recorded units from a ledger free of duplicates: every
delete that succeeds removes one entry. -/
theorem rollback_removes (m : Migrator σ) (l : List (Migration σ)) (w : World σ)
    (hl : w.db.ledger.Nodup) (hi : (idsOf l).Nodup) (hin : ∀ x ∈ l, x.Id ∈ w.db.ledger) :
    (runList m.rollbackRunner l (seen (Op.scan none) w)).2.db.ledger.Nodup
    ∧ (deletes ((runList m.rollbackRunner l (seen (Op.scan none) w)).2.ops.drop
        w.ops.length)).Nodup
    ∧ (∀ id ∈ deletes ((runList m.rollbackRunner l (seen (Op.scan none) w)).2.ops.drop
          w.ops.length),
        id ∈ w.db.ledger
        ∧ id ∉ (runList m.rollbackRunner l (seen (Op.scan none) w)).2.db.ledger)
    ∧ (runList m.rollbackRunner l (seen (Op.scan none) w)).2.db.ledger.length
        + (deletes ((runList m.rollbackRunner l (seen (Op.scan none) w)).2.ops.drop
            w.ops.length)).length = w.db.ledger.length := by
  have key : ∀ (P : List (Migration σ)) (led : List String) (D : List String),
      P.Sublist l → led = w.db.ledger.filter (fun y => decide (y ∉ idsOf P)) → D = idsOf P →
      led.Nodup ∧ D.Nodup ∧ (∀ id ∈ D, id ∈ w.db.ledger ∧ id ∉ led)
      ∧ led.length + D.length = w.db.ledger.length := by
    intro P led D hP hled hD
    subst hled
    subst hD
    have hPn : (idsOf P).Nodup := List.Nodup.sublist (idsOf_sublist _ _ hP) hi
    have hPin : ∀ a ∈ idsOf P, a ∈ w.db.ledger := by
      intro a ha
      rcases List.mem_map.mp ha with ⟨x, hx, hxa⟩
      rw [← hxa]
      exact hin x (hP.subset hx)
    refine ⟨List.Nodup.filter _ hl, hPn, ?_, length_filter_removed _ _ hl hPn hPin⟩
    intro id hid
    refine ⟨hPin id hid, ?_⟩
    intro hmem
    have := (List.mem_filter.mp hmem).2
    simp at this
    exact this hid
  have ho : (seen (Op.scan none) w).ops = w.ops ++ [Op.scan none] := rfl
  rcases runList_rollback m l (seen (Op.scan none) w) with ⟨_, g2, _, g4⟩ |
    ⟨pre, x, post, e, seg, g0, _, gseg, g2, _, g4, _⟩
  · apply key l _ _ (List.Sublist.refl l)
    · rw [g2]; rfl
    · rw [g4, ho, List.append_assoc, List.drop_left, deletes_append, deletes_backwardOk]
      rfl
  · apply key pre _ _ (by rw [g0]; exact List.sublist_append_left _ _)
    · rw [g2]; rfl
    · rw [g4, ho, List.append_assoc, List.append_assoc, List.drop_left, deletes_append,
        deletes_append, deletes_backwardOk, deletes_backwardFailed x e seg gseg]
      simp [deletes]

/-- A forward execution of units of the forward set keeps a ledger free of
duplicates, whether it fails part-way or not. -/
theorem migrate_keeps_nodup (m : Migrator σ) (l : List (Migration σ)) (w : World σ)
    (hids : (idsOf m.migrations).Nodup) (hl : w.db.ledger.Nodup)
    (hsub : l.Sublist (forwardSet m.migrations w.db.ledger)) :
    (runList m.migrateRunner l (seen (Op.scan none) w)).2.db.ledger.Nodup := by
  rcases runList_migrate m l (seen (Op.scan none) w) with ⟨_, g2, _, _⟩ |
    ⟨pre, x, post, e, seg, g0, _, _, g2, _, _, _⟩
  · rw [g2]
    exact nodup_append_forward m.migrations w.db.ledger hids hl l hsub
  · rw [g2]
    apply nodup_append_forward m.migrations w.db.ledger hids hl pre
    exact List.Sublist.trans (by rw [g0]; exact List.sublist_append_left _ _) hsub

end GormMigrator

namespace GormMigrator

variable {σ : Type}

theorem idsOf_backward_selection_nodup (migrations : List (Migration σ))
    (ledger : List String) (n : Nat) (hids : (idsOf migrations).Nodup) :
    (idsOf ((backwardSet migrations ledger).reverse.take n)).Nodup := by
  have h1 : (idsOf (backwardSet migrations ledger)).Nodup :=
    List.Nodup.sublist (idsOf_sublist _ _ (List.filter_sublist _)) hids
  have h2 : (idsOf (backwardSet migrations ledger).reverse).Nodup := by
    unfold idsOf at h1 ⊢
    rw [List.map_reverse]
    exact List.nodup_reverse.mpr h1
  exact List.Nodup.sublist (idsOf_sublist _ _ (List.take_sublist _ _)) h2

theorem delete_removes_one (m : Migrator σ) (id : String) (tx : World σ)
    (hl : tx.db.ledger.Nodup) (hid : id ∈ tx.db.ledger)
    (hd : m.config.Db.deleteErr id tx = none) :
    (m.removeMigrationExecutedMark id tx).2.db.ledger.length + 1 = tx.db.ledger.length := by
  unfold Migrator.removeMigrationExecutedMark
  rw [hd]
  have h := length_filter_removed tx.db.ledger [id] hl (List.nodup_singleton id)
    (by intro a ha; rw [List.mem_singleton.mp ha]; exact hid)
  have hf : tx.db.ledger.filter (fun x => decide (x ≠ id))
      = tx.db.ledger.filter (fun y => decide (y ∉ [id])) := by
    apply List.filter_congr
    intro y _
    simp
  show (tx.db.ledger.filter (fun x => decide (x ≠ id))).length + 1 = tx.db.ledger.length
  rw [hf]
  simpa using h

/-- C22: for a sequence with unique ids and a ledger without duplicate entries,
after each of the six public operations, whatever its outcome, the ledger has no
duplicate entries.  Hence a delete by id that succeeds on such a ledger removes
exactly one entry when the id is recorded, and in `RollbackStep` the deletes that
succeed concern distinct ids that were recorded and no longer are, the ledger
having lost exactly one entry for each of them. -/
theorem ledger_nodup (m : Migrator σ) (step : Int) (w : World σ)
    (hids : (idsOf m.migrations).Nodup) (hl : w.db.ledger.Nodup) :
    (m.Run w).2.db.ledger.Nodup
    ∧ (m.RunCheck w).2.db.ledger.Nodup
    ∧ (m.RunStep step w).2.db.ledger.Nodup
    ∧ (m.RunStepCheck step w).2.db.ledger.Nodup
    ∧ (m.RollbackStep step w).2.db.ledger.Nodup
    ∧ (m.RollbackStepCheck step w).2.db.ledger.Nodup
    ∧ (∀ id tx, tx.db.ledger.Nodup → id ∈ tx.db.ledger →
        m.config.Db.deleteErr id tx = none →
        (m.removeMigrationExecutedMark id tx).2.db.ledger.length + 1 = tx.db.ledger.length)
    ∧ (deletes ((m.RollbackStep step w).2.ops.drop w.ops.length)).Nodup
    ∧ (∀ id ∈ deletes ((m.RollbackStep step w).2.ops.drop w.ops.length),
        id ∈ w.db.ledger ∧ id ∉ (m.RollbackStep step w).2.db.ledger)
    ∧ (m.RollbackStep step w).2.db.ledger.length
        + (deletes ((m.RollbackStep step w).2.ops.drop w.ops.length)).length
        = w.db.ledger.length := by
  have hc := check_effect_free m step w
  have hrun : (m.Run w).2.db.ledger.Nodup := by
    cases hs : m.config.Db.scanErr w with
    | some e => rw [Run_error m w e hs]; exact hl
    | none =>
      rw [Run_eq m w hs]
      split
      · exact hl
      · exact migrate_keeps_nodup m _ w hids hl (List.Sublist.refl _)
  have hstep : (m.RunStep step w).2.db.ledger.Nodup := by
    cases hs : m.config.Db.scanErr w with
    | some e => rw [RunStep_error m step w e hs]; exact hl
    | none =>
      rw [RunStep_eq m step w hs]
      split
      · exact hl
      · exact migrate_keeps_nodup m _ w hids hl (List.take_sublist _ _)
  have hback : (m.RollbackStep step w).2.db.ledger.Nodup
      ∧ (deletes ((m.RollbackStep step w).2.ops.drop w.ops.length)).Nodup
      ∧ (∀ id ∈ deletes ((m.RollbackStep step w).2.ops.drop w.ops.length),
          id ∈ w.db.ledger ∧ id ∉ (m.RollbackStep step w).2.db.ledger)
      ∧ (m.RollbackStep step w).2.db.ledger.length
          + (deletes ((m.RollbackStep step w).2.ops.drop w.ops.length)).length
          = w.db.ledger.length := by
    cases hs : m.config.Db.scanErr w with
    | some e =>
      rw [RollbackStep_error m step w e hs]
      have ho : (seen (Op.scan (some e)) w).ops = w.ops ++ [Op.scan (some e)] := rfl
      rw [ho, List.drop_left]
      exact ⟨hl, List.nodup_nil, fun id hid => absurd hid (List.not_mem_nil id), rfl⟩
    | none =>
      rw [RollbackStep_eq m step w hs]
      split
      · have ho : (Info noAvailableMigrations [] (seen (Op.scan none) w)).ops
            = w.ops ++ [Op.scan none] := rfl
        rw [ho, List.drop_left]
        exact ⟨hl, List.nodup_nil, fun id hid => absurd hid (List.not_mem_nil id), rfl⟩
      · apply rollback_removes m _ w hl
          (idsOf_backward_selection_nodup m.migrations w.db.ledger step.toNat hids)
        intro x hx
        have hxb : x ∈ backwardSet m.migrations w.db.ledger :=
          List.mem_reverse.mp (List.mem_of_mem_take hx)
        simpa using (List.mem_filter.mp hxb).2
  refine ⟨hrun, by rw [hc.1]; exact hl, hstep, by rw [hc.2.1]; exact hl, hback.1,
    by rw [hc.2.2]; exact hl, ?_, hback.2.1, hback.2.2.1, hback.2.2.2⟩
  intro id tx htx hid hd
  exact delete_removes_one m id tx htx hid hd

/-- C22, on the sequence 0..4: with the ledger [1, 2, 4], `RollbackStep 2` deletes
4 and 2 and the ledger goes from three entries to one; with the sequence whose
unit 2 fails and the ledger [0, 1], `Run` fails and leaves [0, 1]. -/
theorem ledger_nodup_witness :
    (idsOf testMigrator.migrations).Nodup
    ∧ world124.db.ledger.Nodup
    ∧ (testMigrator.RollbackStep 2 world124).2.db.ledger.Nodup
    ∧ (testMigrator.RollbackStep 2 world124).2.db.ledger.length
        + (deletes ((testMigrator.RollbackStep 2 world124).2.ops.drop
            world124.ops.length)).length = world124.db.ledger.length
    ∧ deletes ((testMigrator.RollbackStep 2 world124).2.ops.drop world124.ops.length)
        = ["migration_4", "migration_2"]
    ∧ (testMigrator.RollbackStep 2 world124).2.db.ledger = ["migration_1"]
    ∧ (brokenMigrator.Run world01).2.db.ledger = ["migration_0", "migration_1"] :=
  ⟨by decide, by decide,
    (ledger_nodup testMigrator 2 world124 (by decide) (by decide)).2.2.2.2.1,
    (ledger_nodup testMigrator 2 world124 (by decide) (by decide)).2.2.2.2.2.2.2.2.2,
    by decide, by decide, by decide⟩

end GormMigrator

namespace GormMigrator

variable {σ : Type}

/-! ## Negative steps and the index of the backward loop -/

theorem runList_no_panic (runner : Migration σ → World σ → Outcome × World σ)
    (hr : ∀ x v, (runner x v).1 ≠ Outcome.panic) (l : List (Migration σ)) :
    ∀ w : World σ, (runList runner l w).1 ≠ Outcome.panic := by
  induction l with
  | nil => intro w h; exact Outcome.noConfusion h
  | cons a t ih =>
    intro w
    have ha := hr a w
    unfold runList
    rcases hm : runner a w with ⟨o, w1⟩
    rw [hm] at ha
    cases o with
    | nil => exact ih w1
    | err e => intro h; exact Outcome.noConfusion h
    | panic => exact absurd rfl ha

/-- C23: for every negative step, once the ledger is read: with a forward set that
is not empty `RunStep` and `RunStepCheck`, and with a backward set that is not
empty `RollbackStep` and `RollbackStepCheck`, return nil, notify nothing, call no
handler and leave the database as it was.  For every list, count (negative or
beyond the length) and runner, `rollbackMigrationList` calls the runner on the
last `count` units of the list, the last first, and its index is never out of
range: it does not panic unless the runner itself does. -/
theorem negative_step (m : Migrator σ) (step : Int) (w : World σ) (hneg : step < 0)
    (hscan : m.config.Db.scanErr w = none) :
    (forwardSet m.migrations w.db.ledger ≠ [] →
      OnlyRead w (m.RunStep step w) ∧ OnlyRead w (m.RunStepCheck step w))
    ∧ (backwardSet m.migrations w.db.ledger ≠ [] →
      OnlyRead w (m.RollbackStep step w) ∧ OnlyRead w (m.RollbackStepCheck step w))
    ∧ (∀ (list : List (Migration σ)) (count : Int)
        (runner : Migration σ → World σ → Outcome × World σ) (v : World σ),
        m.rollbackMigrationList list count runner v
          = runList runner (list.reverse.take count.toNat) v
        ∧ ((∀ x u, (runner x u).1 ≠ Outcome.panic) →
          (m.rollbackMigrationList list count runner v).1 ≠ Outcome.panic)) := by
  have hz : step.toNat = 0 := by omega
  have hne0 : ¬ step = 0 := by omega
  refine ⟨?_, ?_, ?_⟩
  · intro hne
    have hlen : ¬ (forwardSet m.migrations w.db.ledger).length = 0 := by simpa using hne
    rw [RunStep_eq m step w hscan, RunStepCheck_eq m step w hscan, if_neg hlen, if_neg hlen,
      hz, List.take_zero]
    exact ⟨⟨rfl, rfl, rfl, rfl⟩, ⟨rfl, rfl, rfl, rfl⟩⟩
  · intro hne
    have hlen : ¬ (backwardSet m.migrations w.db.ledger).length = 0 := by simpa using hne
    rw [RollbackStep_eq m step w hscan, RollbackStepCheck_eq m step w hscan, if_neg hlen,
      if_neg hlen, if_neg hne0, hz, List.take_zero]
    exact ⟨⟨rfl, rfl, rfl, rfl⟩, ⟨rfl, rfl, rfl, rfl⟩⟩
  · intro list count runner v
    refine ⟨rollbackMigrationList_eq m list count runner v, ?_⟩
    intro hr
    rw [rollbackMigrationList_eq]
    exact runList_no_panic runner hr _ v

/-- C23, on the sequence 0..4 with the ledger [0, 2] and step -1: the four step
operations only read the ledger. -/
theorem negative_step_witness :
    (-1 : Int) < 0
    ∧ testMigrator.config.Db.scanErr world02 = none
    ∧ forwardSet testMigrator.migrations world02.db.ledger ≠ []
    ∧ backwardSet testMigrator.migrations world02.db.ledger ≠ []
    ∧ (OnlyRead world02 (testMigrator.RunStep (-1) world02)
      ∧ OnlyRead world02 (testMigrator.RunStepCheck (-1) world02))
    ∧ (OnlyRead world02 (testMigrator.RollbackStep (-1) world02)
      ∧ OnlyRead world02 (testMigrator.RollbackStepCheck (-1) world02))
    ∧ testMigrator.RollbackStep (-1) world02
        = (Outcome.nil, { db := world02.db, notes := [], ops := [Op.scan none] })
    ∧ (testMigrator.rollbackMigrationList testMigrator.migrations 7
        testMigrator.rollbackCheckRunner world02).1 = Outcome.nil
    ∧ (testMigrator.rollbackMigrationList testMigrator.migrations (-3)
        testMigrator.rollbackCheckRunner world02).1 = Outcome.nil :=
  ⟨by decide, rfl, fun h => absurd (congrArg List.length h) (by decide),
    fun h => absurd (congrArg List.length h) (by decide),
    (negative_step testMigrator (-1) world02 (by decide) rfl).1
      (fun h => absurd (congrArg List.length h) (by decide)),
    (negative_step testMigrator (-1) world02 (by decide) rfl).2.1
      (fun h => absurd (congrArg List.length h) (by decide)),
    by decide, by decide, by decide⟩

end GormMigrator

namespace GormMigrator

variable {σ : Type}

/-! ## Runs that return nil -/

/-- A forward execution of a list of units that returns nil committed them all. -/
theorem runList_migrate_nil (m : Migrator σ) (l : List (Migration σ)) (w : World σ)
    (h : (runList m.migrateRunner l w).1 = Outcome.nil) :
    (runList m.migrateRunner l w).2.db
        = { data := migrateAll l w.db.data, ledger := w.db.ledger ++ idsOf l }
    ∧ (runList m.migrateRunner l w).2.notes = w.notes ++ l.map executedNote
    ∧ (runList m.migrateRunner l w).2.ops = w.ops ++ l.flatMap forwardOk := by
  rcases runList_migrate m l w with ⟨_, g2, g3, g4⟩ | ⟨_, _, _, e, _, _, g1, _⟩
  · exact ⟨g2, g3, g4⟩
  · rw [g1] at h
    exact Outcome.noConfusion h

/-- A backward execution of a list of units that returns nil committed them all. -/
theorem runList_rollback_nil (m : Migrator σ) (l : List (Migration σ)) (w : World σ)
    (h : (runList m.rollbackRunner l w).1 = Outcome.nil) :
    (runList m.rollbackRunner l w).2.db
        = { data := rollbackAll l w.db.data,
            ledger := w.db.ledger.filter (fun y => decide (y ∉ idsOf l)) }
    ∧ (runList m.rollbackRunner l w).2.notes = w.notes ++ l.map rolledBackNote
    ∧ (runList m.rollbackRunner l w).2.ops = w.ops ++ l.flatMap backwardOk := by
  rcases runList_rollback m l w with ⟨_, g2, g3, g4⟩ | ⟨_, _, _, e, _, _, g1, _⟩
  · exact ⟨g2, g3, g4⟩
  · rw [g1] at h
    exact Outcome.noConfusion h

theorem scan_ok_of_Run_nil (m : Migrator σ) (w : World σ)
    (h : (m.Run w).1 = Outcome.nil) : m.config.Db.scanErr w = none := by
  cases hs : m.config.Db.scanErr w with
  | none => rfl
  | some e =>
    rw [Run_error m w e hs] at h
    exact Outcome.noConfusion h

theorem scan_ok_of_RunStep_nil (m : Migrator σ) (step : Int) (w : World σ)
    (h : (m.RunStep step w).1 = Outcome.nil) : m.config.Db.scanErr w = none := by
  cases hs : m.config.Db.scanErr w with
  | none => rfl
  | some e =>
    rw [RunStep_error m step w e hs] at h
    exact Outcome.noConfusion h

theorem scan_ok_of_RollbackStep_nil (m : Migrator σ) (step : Int) (w : World σ)
    (h : (m.RollbackStep step w).1 = Outcome.nil) : m.config.Db.scanErr w = none := by
  cases hs : m.config.Db.scanErr w with
  | none => rfl
  | some e =>
    rw [RollbackStep_error m step w e hs] at h
    exact Outcome.noConfusion h

/-- What a forward run over the units `l` that returns nil leaves, after the
ledger read: the ledger, the notifications, the statements and the handler calls. -/
theorem forward_nil_observed (m : Migrator σ) (l : List (Migration σ)) (w : World σ)
    (h : (runList m.migrateRunner l (seen (Op.scan none) w)).1 = Outcome.nil) :
    (runList m.migrateRunner l (seen (Op.scan none) w)).2.db.ledger = w.db.ledger ++ idsOf l
    ∧ (runList m.migrateRunner l (seen (Op.scan none) w)).2.notes
        = w.notes ++ l.map executedNote
    ∧ (runList m.migrateRunner l (seen (Op.scan none) w)).2.ops
        = w.ops ++ [Op.scan none] ++ l.flatMap forwardOk
    ∧ forwardCalls
          ((runList m.migrateRunner l (seen (Op.scan none) w)).2.ops.drop w.ops.length)
        = idsOf l := by
  rcases runList_migrate_nil m l (seen (Op.scan none) w) h with ⟨g2, g3, g4⟩
  have ho : (seen (Op.scan none) w).ops = w.ops ++ [Op.scan none] := rfl
  refine ⟨by rw [g2]; rfl, by rw [g3]; rfl, by rw [g4]; rfl, ?_⟩
  rw [g4, ho, List.append_assoc, List.drop_left]
  have : forwardCalls ([Op.scan none] ++ l.flatMap forwardOk)
      = forwardCalls (l.flatMap forwardOk) := by
    simp [forwardCalls]
  rw [this, forwardCalls_forwardOk]

/-- What a backward run over the units `l` that returns nil leaves, after the
ledger read. -/
theorem backward_nil_observed (m : Migrator σ) (l : List (Migration σ)) (w : World σ)
    (h : (runList m.rollbackRunner l (seen (Op.scan none) w)).1 = Outcome.nil) :
    (runList m.rollbackRunner l (seen (Op.scan none) w)).2.db.ledger
        = w.db.ledger.filter (fun y => decide (y ∉ idsOf l))
    ∧ (runList m.rollbackRunner l (seen (Op.scan none) w)).2.notes
        = w.notes ++ l.map rolledBackNote
    ∧ (runList m.rollbackRunner l (seen (Op.scan none) w)).2.ops
        = w.ops ++ [Op.scan none] ++ l.flatMap backwardOk
    ∧ backwardCalls
          ((runList m.rollbackRunner l (seen (Op.scan none) w)).2.ops.drop w.ops.length)
        = idsOf l := by
  rcases runList_rollback_nil m l (seen (Op.scan none) w) h with ⟨g2, g3, g4⟩
  have ho : (seen (Op.scan none) w).ops = w.ops ++ [Op.scan none] := rfl
  refine ⟨by rw [g2]; rfl, by rw [g3]; rfl, by rw [g4]; rfl, ?_⟩
  rw [g4, ho, List.append_assoc, List.drop_left]
  have : backwardCalls ([Op.scan none] ++ l.flatMap backwardOk)
      = backwardCalls (l.flatMap backwardOk) := by
    simp [backwardCalls]
  rw [this, backwardCalls_backwardOk]

/-- A `RunStep` that returns nil: the ledger, the statements and the forward calls. -/
theorem RunStep_nil_observed (m : Migrator σ) (step : Int) (w : World σ)
    (h : (m.RunStep step w).1 = Outcome.nil) :
    (m.RunStep step w).2.db.ledger
        = w.db.ledger ++ idsOf ((forwardSet m.migrations w.db.ledger).take step.toNat)
    ∧ (m.RunStep step w).2.ops = w.ops ++ [Op.scan none]
        ++ ((forwardSet m.migrations w.db.ledger).take step.toNat).flatMap forwardOk
    ∧ forwardCalls ((m.RunStep step w).2.ops.drop w.ops.length)
        = idsOf ((forwardSet m.migrations w.db.ledger).take step.toNat) := by
  have hscan := scan_ok_of_RunStep_nil m step w h
  rw [RunStep_eq m step w hscan] at h ⊢
  by_cases hempty : (forwardSet m.migrations w.db.ledger).length = 0
  · have hnil : forwardSet m.migrations w.db.ledger = [] := List.length_eq_zero.mp hempty
    rw [if_pos hempty, (noAvailable_observed "" w).2.1, hnil]
    exact ⟨by simp [Info, seen, idsOf], by simp [Info, seen], by simp [idsOf]⟩
  · rw [if_neg hempty] at h ⊢
    have g := forward_nil_observed m _ w h
    exact ⟨g.1, g.2.2.1, g.2.2.2⟩

/-- A `Run` that returns nil: the ledger and the statements. -/
theorem Run_nil_observed (m : Migrator σ) (w : World σ)
    (h : (m.Run w).1 = Outcome.nil) :
    (m.Run w).2.db.ledger = w.db.ledger ++ idsOf (forwardSet m.migrations w.db.ledger)
    ∧ (m.Run w).2.ops = w.ops ++ [Op.scan none]
        ++ (forwardSet m.migrations w.db.ledger).flatMap forwardOk := by
  have hscan := scan_ok_of_Run_nil m w h
  rw [Run_eq m w hscan] at h ⊢
  by_cases hempty : (forwardSet m.migrations w.db.ledger).length = 0
  · have hnil : forwardSet m.migrations w.db.ledger = [] := List.length_eq_zero.mp hempty
    rw [if_pos hempty, hnil]
    exact ⟨by simp [Info, seen, idsOf], by simp [Info, seen]⟩
  · rw [if_neg hempty] at h ⊢
    have g := forward_nil_observed m _ w h
    exact ⟨g.1, g.2.2.1⟩

/-- A `RollbackStep` that returns nil: the ledger, the statements and the backward
calls. -/
theorem RollbackStep_nil_observed (m : Migrator σ) (step : Int) (w : World σ)
    (h : (m.RollbackStep step w).1 = Outcome.nil) :
    (m.RollbackStep step w).2.db.ledger
        = w.db.ledger.filter (fun y => decide (y ∉ idsOf
            ((backwardSet m.migrations w.db.ledger).reverse.take step.toNat)))
    ∧ (m.RollbackStep step w).2.ops = w.ops ++ [Op.scan none]
        ++ ((backwardSet m.migrations w.db.ledger).reverse.take step.toNat).flatMap backwardOk
    ∧ backwardCalls ((m.RollbackStep step w).2.ops.drop w.ops.length)
        = idsOf ((backwardSet m.migrations w.db.ledger).reverse.take step.toNat) := by
  have hscan := scan_ok_of_RollbackStep_nil m step w h
  rw [RollbackStep_eq m step w hscan] at h ⊢
  by_cases hempty : (backwardSet m.migrations w.db.ledger).length = 0
  · have hnil : backwardSet m.migrations w.db.ledger = [] := List.length_eq_zero.mp hempty
    rw [if_pos hempty, (noAvailable_observed "" w).2.2, hnil]
    exact ⟨by simp [Info, seen, idsOf], by simp [Info, seen], by simp [idsOf]⟩
  · rw [if_neg hempty] at h ⊢
    have g := backward_nil_observed m _ w h
    exact ⟨g.1, g.2.2.1, g.2.2.2⟩

end GormMigrator

namespace GormMigrator

variable {σ : Type}

/-! ## Bounded runs in which every unit succeeds -/

/-- C4: for every sequence, ledger and step n >= 0, when every unit `RunStep n`
executes succeeds, that is when the call returns nil, it has executed exactly the
first min(n, |forward set|) units of the forward set in sequence order, each in a
committed transaction, and the ledger is the previous one followed by their ids.
The units it leaves are pending: with the unique ids the sequence must have, none
of their ids is in the ledger and they are the forward set of the next call.  For
n at least the size of the forward set, `RunStep n` is `Run`. -/
theorem RunStep_bound (m : Migrator σ) (step : Int) (w : World σ)
    (hstep : 0 ≤ step) (hsucc : (m.RunStep step w).1 = Outcome.nil) :
    (m.RunStep step w).2.ops = w.ops ++ [Op.scan none]
        ++ ((forwardSet m.migrations w.db.ledger).take step.toNat).flatMap forwardOk
    ∧ ((((forwardSet m.migrations w.db.ledger).take step.toNat).length : Int)
        = min step (forwardSet m.migrations w.db.ledger).length)
    ∧ (m.RunStep step w).2.db.ledger
        = w.db.ledger ++ idsOf ((forwardSet m.migrations w.db.ledger).take step.toNat)
    ∧ ((idsOf m.migrations).Nodup →
        (∀ x ∈ (forwardSet m.migrations w.db.ledger).drop step.toNat,
          x.Id ∉ (m.RunStep step w).2.db.ledger)
        ∧ forwardSet m.migrations (m.RunStep step w).2.db.ledger
            = (forwardSet m.migrations w.db.ledger).drop step.toNat)
    ∧ (((forwardSet m.migrations w.db.ledger).length : Int) ≤ step →
        m.RunStep step w = m.Run w) := by
  have hscan := scan_ok_of_RunStep_nil m step w hsucc
  have hobs := RunStep_nil_observed m step w hsucc
  have hlen : ((((forwardSet m.migrations w.db.ledger).take step.toNat).length : Int)
      = min step (forwardSet m.migrations w.db.ledger).length) := by
    rw [List.length_take]
    omega
  refine ⟨hobs.2.1, hlen, hobs.1, ?_, ?_⟩
  · intro hids
    have hnext : forwardSet m.migrations (m.RunStep step w).2.db.ledger
        = (forwardSet m.migrations w.db.ledger).drop step.toNat := by
      rw [hobs.1, forwardSet_append, filter_not_taken _ (idsOf_forwardSet_nodup _ _ hids)]
    refine ⟨?_, hnext⟩
    intro x hx
    rw [← hnext] at hx
    simpa using (List.mem_filter.mp hx).2
  · intro hle
    rw [RunStep_eq m step w hscan, Run_eq m w hscan, List.take_of_length_le (by omega)]

/-- C4, on the input of `Test_Migrator_RunStep`: sequence 0..4 with the ledger
[0, 2]; `RunStep 2` executes 1 then 3 and leaves 4 pending.  On two units that
create tables, whose forward handlers fail once their table exists, `RunStep 1`
creates the first table and leaves the second unit pending. -/
theorem RunStep_bound_witness :
    (0 : Int) ≤ 2
    ∧ (testMigrator.RunStep 2 world02).1 = Outcome.nil
    ∧ (idsOf testMigrator.migrations).Nodup
    ∧ (testMigrator.RunStep 2 world02).2.db.ledger
        = world02.db.ledger
          ++ idsOf ((forwardSet testMigrator.migrations world02.db.ledger).take (2 : Int).toNat)
    ∧ forwardSet testMigrator.migrations (testMigrator.RunStep 2 world02).2.db.ledger
        = (forwardSet testMigrator.migrations world02.db.ledger).drop (2 : Int).toNat
    ∧ (testMigrator.RunStep 2 world02).2.ops
        = [Op.scan none,
           Op.begin, Op.migrate "migration_1" none, Op.insert "migration_1" none, Op.commit,
           Op.begin, Op.migrate "migration_3" none, Op.insert "migration_3" none, Op.commit]
    ∧ (testMigrator.RunStep 2 world02).2.db.ledger
        = ["migration_0", "migration_2", "migration_1", "migration_3"]
    ∧ idsOf (forwardSet testMigrator.migrations (testMigrator.RunStep 2 world02).2.db.ledger)
        = ["migration_4"]
    ∧ (tableMigrator.RunStep 1 (executedWorld [])).1 = Outcome.nil
    ∧ (tableMigrator.RunStep 1 (executedWorld [])).2.db.ledger
        = (executedWorld []).db.ledger
          ++ idsOf ((forwardSet tableMigrator.migrations
              (executedWorld []).db.ledger).take (1 : Int).toNat)
    ∧ (tableMigrator.RunStep 1 (executedWorld [])).2.db
        = { data := ["users"], ledger := ["create_users"] } :=
  ⟨by decide, by decide, by decide,
    (RunStep_bound testMigrator 2 world02 (by decide) (by decide)).2.2.1,
    ((RunStep_bound testMigrator 2 world02 (by decide) (by decide)).2.2.2.1 (by decide)).2,
    by decide, by decide, by decide, by decide,
    (RunStep_bound tableMigrator 1 (executedWorld []) (by decide) (by decide)).2.2.1,
    by decide⟩

/-- C5: for every sequence (with unique ids or not), every ledger and every step
n >= 0, when every backward execution `RollbackStep n` performs succeeds, that is
when the call returns nil, it has sent the backward statements of exactly the last
min(n, |backward set|) units of the backward set, the last in sequence first, each
in a committed transaction; the ledger afterwards is the previous ledger without
the ids of those units, its other entries in their previous order. -/
theorem RollbackStep_order (m : Migrator σ) (step : Int) (w : World σ)
    (hstep : 0 ≤ step) (hsucc : (m.RollbackStep step w).1 = Outcome.nil) :
    (m.RollbackStep step w).2.ops = w.ops ++ [Op.scan none]
        ++ ((backwardSet m.migrations w.db.ledger).drop
            ((backwardSet m.migrations w.db.ledger).length - step.toNat)).reverse.flatMap
              backwardOk
    ∧ (((((backwardSet m.migrations w.db.ledger).drop
          ((backwardSet m.migrations w.db.ledger).length - step.toNat)).reverse).length : Int)
        = min step (backwardSet m.migrations w.db.ledger).length)
    ∧ (m.RollbackStep step w).2.db.ledger
        = w.db.ledger.filter (fun y => decide (y ∉ idsOf
            ((backwardSet m.migrations w.db.ledger).drop
              ((backwardSet m.migrations w.db.ledger).length - step.toNat)))) := by
  have hobs := RollbackStep_nil_observed m step w hsucc
  have hlen : (((((backwardSet m.migrations w.db.ledger).drop
        ((backwardSet m.migrations w.db.ledger).length - step.toNat)).reverse).length : Int)
      = min step (backwardSet m.migrations w.db.ledger).length) := by
    rw [List.length_reverse, List.length_drop]
    omega
  have hmem : ∀ y : String,
      decide (y ∉ idsOf ((backwardSet m.migrations w.db.ledger).drop
        ((backwardSet m.migrations w.db.ledger).length - step.toNat)).reverse)
      = decide (y ∉ idsOf ((backwardSet m.migrations w.db.ledger).drop
        ((backwardSet m.migrations w.db.ledger).length - step.toNat))) := by
    intro y
    simp [idsOf]
  rw [reverse_take_eq] at hobs
  refine ⟨hobs.2.1, hlen, ?_⟩
  rw [hobs.1]
  simp only [hmem]

/-- C5, on the inputs of `Test_Migrator_RollbackStep`: with all five units
recorded `RollbackStep 2` rolls back 4 then 3 and leaves [0, 1, 2]; with the
ledger [1, 2, 4] it rolls back 4 then 2.  On the two table-creating units, whose
backward handlers fail when their table is missing, `RollbackStep 1` after `Run`
drops the second table. -/
theorem RollbackStep_order_witness :
    (0 : Int) ≤ 2
    ∧ (testMigrator.RollbackStep 2 worldAll).1 = Outcome.nil
    ∧ (testMigrator.RollbackStep 2 worldAll).2.db.ledger
        = worldAll.db.ledger.filter (fun y => decide (y ∉ idsOf
            ((backwardSet testMigrator.migrations worldAll.db.ledger).drop
              ((backwardSet testMigrator.migrations worldAll.db.ledger).length
                - (2 : Int).toNat))))
    ∧ (testMigrator.RollbackStep 2 worldAll).2.ops
        = [Op.scan none,
           Op.begin, Op.rollback "migration_4" none, Op.delete "migration_4" none, Op.commit,
           Op.begin, Op.rollback "migration_3" none, Op.delete "migration_3" none, Op.commit]
    ∧ (testMigrator.RollbackStep 2 worldAll).2.db.ledger
        = ["migration_0", "migration_1", "migration_2"]
    ∧ (testMigrator.RollbackStep 2 world124).2.ops
        = [Op.scan none,
           Op.begin, Op.rollback "migration_4" none, Op.delete "migration_4" none, Op.commit,
           Op.begin, Op.rollback "migration_2" none, Op.delete "migration_2" none, Op.commit]
    ∧ (testMigrator.RollbackStep 2 world124).2.db.ledger = ["migration_1"]
    ∧ (tableMigrator.RollbackStep 1 (tableMigrator.Run (executedWorld [])).2).1 = Outcome.nil
    ∧ (tableMigrator.RollbackStep 1 (tableMigrator.Run (executedWorld [])).2).2.db
        = { data := ["users"], ledger := ["create_users"] } :=
  ⟨by decide, by decide,
    (RollbackStep_order testMigrator 2 worldAll (by decide) (by decide)).2.2,
    by decide, by decide, by decide, by decide, by decide, by decide⟩

/-- C9: for every sequence and every initial ledger, when every forward operation
and ledger insert of `Run` succeeds, that is when `Run` returns nil, the ledger
afterwards is the previous ledger followed by the ids of the forward set in
sequence order, and the statements sent are one committed transaction per unit of
the forward set (as many transactions opened, and as many committed, as units);
with an empty ledger the ledger ends as the ids of the whole sequence in sequence
order. -/
theorem Run_all_succeed (m : Migrator σ) (w : World σ)
    (hsucc : (m.Run w).1 = Outcome.nil) :
    (m.Run w).2.db.ledger = w.db.ledger ++ idsOf (forwardSet m.migrations w.db.ledger)
    ∧ (m.Run w).2.ops = w.ops ++ [Op.scan none]
        ++ (forwardSet m.migrations w.db.ledger).flatMap forwardOk
    ∧ ((forwardSet m.migrations w.db.ledger).flatMap forwardOk).count Op.begin
        = (forwardSet m.migrations w.db.ledger).length
    ∧ ((forwardSet m.migrations w.db.ledger).flatMap forwardOk).count Op.commit
        = (forwardSet m.migrations w.db.ledger).length
    ∧ (w.db.ledger = [] → (m.Run w).2.db.ledger = idsOf m.migrations) := by
  have hobs := Run_nil_observed m w hsucc
  refine ⟨hobs.1, hobs.2, count_begin_forwardOk _, count_commit_forwardOk _, ?_⟩
  intro hl
  rw [hobs.1, hl]
  unfold forwardSet
  simp

/-- C9, on the five units of the tests with an empty ledger: `Run` executes all
five in order, each in its own transaction, and the ledger ends as
[0, 1, 2, 3, 4].  On the two table-creating units, whose forward handlers fail
once their table exists, `Run` returns nil and records both. -/
theorem Run_all_succeed_witness :
    (testMigrator.Run (executedWorld [])).1 = Outcome.nil
    ∧ (testMigrator.Run (executedWorld [])).2.db.ledger
        = (executedWorld []).db.ledger
          ++ idsOf (forwardSet testMigrator.migrations (executedWorld []).db.ledger)
    ∧ (testMigrator.Run (executedWorld [])).2.db.ledger
        = ["migration_0", "migration_1", "migration_2", "migration_3", "migration_4"]
    ∧ (testMigrator.Run (executedWorld [])).2.ops
        = [Op.scan none,
           Op.begin, Op.migrate "migration_0" none, Op.insert "migration_0" none, Op.commit,
           Op.begin, Op.migrate "migration_1" none, Op.insert "migration_1" none, Op.commit,
           Op.begin, Op.migrate "migration_2" none, Op.insert "migration_2" none, Op.commit,
           Op.begin, Op.migrate "migration_3" none, Op.insert "migration_3" none, Op.commit,
           Op.begin, Op.migrate "migration_4" none, Op.insert "migration_4" none, Op.commit]
    ∧ (tableMigrator.Run (executedWorld [])).1 = Outcome.nil
    ∧ (tableMigrator.Run (executedWorld [])).2.db
        = { data := ["users", "posts"], ledger := ["create_users", "create_posts"] }
    ∧ ((tableMigration "users").Migrate ["users"]).1 = some "table exists" :=
  ⟨by decide, (Run_all_succeed testMigrator (executedWorld []) (by decide)).1,
    by decide, by decide, by decide, by decide, by decide⟩

end GormMigrator

namespace GormMigrator

variable {σ : Type}

/-! ## Dry runs against successful runs -/

/-- C11: for every sequence, state and step n: when `Run` (resp. `RunStep n`)
succeeds, that is returns nil, the dry run `RunCheck` (resp. `RunStepCheck n`)
from the same state returns nil too, its whole list of notifications is that of
the mutating run, and the ids it notifies as `migration executed`, in order, are
the ids whose forward handler the mutating run called, in order. -/
theorem check_parity (m : Migrator σ) (step : Int) (w : World σ) :
    ((m.Run w).1 = Outcome.nil →
      (m.RunCheck w).1 = Outcome.nil
      ∧ (m.RunCheck w).2.notes = (m.Run w).2.notes
      ∧ notifiedIds migrationExecuted ((m.RunCheck w).2.notes.drop w.notes.length)
          = forwardCalls ((m.Run w).2.ops.drop w.ops.length))
    ∧ ((m.RunStep step w).1 = Outcome.nil →
      (m.RunStepCheck step w).1 = Outcome.nil
      ∧ (m.RunStepCheck step w).2.notes = (m.RunStep step w).2.notes
      ∧ notifiedIds migrationExecuted ((m.RunStepCheck step w).2.notes.drop w.notes.length)
          = forwardCalls ((m.RunStep step w).2.ops.drop w.ops.length)) := by
  have hcheck : ∀ l : List (Migration σ),
      (runList m.migrateRunner l (seen (Op.scan none) w)).1 = Outcome.nil →
      (runList m.migrateCheckRunner l (seen (Op.scan none) w)).1 = Outcome.nil
      ∧ (runList m.migrateCheckRunner l (seen (Op.scan none) w)).2.notes
          = (runList m.migrateRunner l (seen (Op.scan none) w)).2.notes
      ∧ notifiedIds migrationExecuted
            ((runList m.migrateCheckRunner l (seen (Op.scan none) w)).2.notes.drop
              w.notes.length)
          = forwardCalls
            ((runList m.migrateRunner l (seen (Op.scan none) w)).2.ops.drop w.ops.length) := by
    intro l h
    have g := forward_nil_observed m l w h
    rw [runList_migrateCheck, g.2.1, g.2.2.2]
    refine ⟨rfl, rfl, ?_⟩
    show notifiedIds migrationExecuted
      (((seen (Op.scan none) w).notes ++ l.map executedNote).drop w.notes.length) = idsOf l
    have hn : (seen (Op.scan none) w).notes = w.notes := rfl
    rw [hn, List.drop_left, notifiedIds_executed]
  have hna := noAvailable_observed migrationExecuted w
  constructor
  · intro h
    have hscan := scan_ok_of_Run_nil m w h
    rw [Run_eq m w hscan] at h ⊢
    rw [RunCheck_eq m w hscan]
    by_cases hempty : (forwardSet m.migrations w.db.ledger).length = 0
    · simp only [if_pos hempty]
      exact ⟨trivial, trivial, hna.1.trans hna.2.1.symm⟩
    · simp only [if_neg hempty] at h ⊢
      exact hcheck _ h
  · intro h
    have hscan := scan_ok_of_RunStep_nil m step w h
    rw [RunStep_eq m step w hscan] at h ⊢
    rw [RunStepCheck_eq m step w hscan]
    by_cases hempty : (forwardSet m.migrations w.db.ledger).length = 0
    · simp only [if_pos hempty]
      exact ⟨trivial, trivial, hna.1.trans hna.2.1.symm⟩
    · simp only [if_neg hempty] at h ⊢
      exact hcheck _ h

/-- C11, on the inputs of `Test_Migrator_RunCheck` and `Test_Migrator_RunStepCheck`:
with the ledger [0, 2], `RunCheck` notifies 1, 3, 4 and `RunStepCheck 2` notifies
1, 3, the units `Run` and `RunStep 2` execute; and on the two table-creating
units, whose forward handlers fail once their table exists. -/
theorem check_parity_witness :
    (testMigrator.Run world02).1 = Outcome.nil
    ∧ (testMigrator.RunStep 2 world02).1 = Outcome.nil
    ∧ (testMigrator.RunCheck world02).2.notes = (testMigrator.Run world02).2.notes
    ∧ (testMigrator.RunStepCheck 2 world02).2.notes = (testMigrator.RunStep 2 world02).2.notes
    ∧ notifiedIds migrationExecuted
        ((testMigrator.RunCheck world02).2.notes.drop world02.notes.length)
        = ["migration_1", "migration_3", "migration_4"]
    ∧ forwardCalls ((testMigrator.Run world02).2.ops.drop world02.ops.length)
        = ["migration_1", "migration_3", "migration_4"]
    ∧ notifiedIds migrationExecuted
        ((testMigrator.RunStepCheck 2 world02).2.notes.drop world02.notes.length)
        = ["migration_1", "migration_3"]
    ∧ forwardCalls ((testMigrator.RunStep 2 world02).2.ops.drop world02.ops.length)
        = ["migration_1", "migration_3"]
    ∧ (tableMigrator.Run (executedWorld [])).1 = Outcome.nil
    ∧ (tableMigrator.RunCheck (executedWorld [])).2.notes
        = (tableMigrator.Run (executedWorld [])).2.notes :=
  ⟨by decide, by decide,
    ((check_parity testMigrator 2 world02).1 (by decide)).2.1,
    ((check_parity testMigrator 2 world02).2 (by decide)).2.1,
    by decide, by decide, by decide, by decide, by decide,
    ((check_parity tableMigrator 2 (executedWorld [])).1 (by decide)).2.1⟩

/-- C14: for every sequence, state and step n: when `RollbackStep n` succeeds, that
is returns nil, `RollbackStepCheck n` from the same state returns nil and notifies
the same, and the ids it notifies as `migration rolled back`, in order, are the
ids whose backward handler `RollbackStep n` called, in order: the ids of the last
min(n, |backward set|) units of the backward set (none for n <= 0), the last in
sequence first. -/
theorem rollback_check_parity (m : Migrator σ) (step : Int) (w : World σ)
    (hsucc : (m.RollbackStep step w).1 = Outcome.nil) :
    (m.RollbackStepCheck step w).1 = Outcome.nil
    ∧ (m.RollbackStepCheck step w).2.notes = (m.RollbackStep step w).2.notes
    ∧ notifiedIds migrationRolledBack
          ((m.RollbackStepCheck step w).2.notes.drop w.notes.length)
        = backwardCalls ((m.RollbackStep step w).2.ops.drop w.ops.length)
    ∧ backwardCalls ((m.RollbackStep step w).2.ops.drop w.ops.length)
        = idsOf ((backwardSet m.migrations w.db.ledger).drop
            ((backwardSet m.migrations w.db.ledger).length - step.toNat)).reverse
    ∧ (0 ≤ step →
        ((((backwardSet m.migrations w.db.ledger).drop
          ((backwardSet m.migrations w.db.ledger).length - step.toNat)).reverse.length : Int)
          = min step (backwardSet m.migrations w.db.ledger).length)) := by
  have hlen : 0 ≤ step →
      ((((backwardSet m.migrations w.db.ledger).drop
        ((backwardSet m.migrations w.db.ledger).length - step.toNat)).reverse.length : Int)
        = min step (backwardSet m.migrations w.db.ledger).length) := by
    intro hstep
    rw [List.length_reverse, List.length_drop]
    omega
  have hcalls := (RollbackStep_nil_observed m step w hsucc).2.2
  rw [reverse_take_eq] at hcalls
  have hscan := scan_ok_of_RollbackStep_nil m step w hsucc
  have hmain : (m.RollbackStepCheck step w).1 = Outcome.nil
      ∧ (m.RollbackStepCheck step w).2.notes = (m.RollbackStep step w).2.notes
      ∧ notifiedIds migrationRolledBack
            ((m.RollbackStepCheck step w).2.notes.drop w.notes.length)
          = backwardCalls ((m.RollbackStep step w).2.ops.drop w.ops.length) := by
    rw [RollbackStep_eq m step w hscan] at hsucc ⊢
    rw [RollbackStepCheck_eq m step w hscan]
    by_cases hempty : (backwardSet m.migrations w.db.ledger).length = 0
    · simp only [if_pos hempty]
      have h := noAvailable_observed migrationRolledBack w
      exact ⟨trivial, trivial, h.1.trans h.2.2.symm⟩
    · simp only [if_neg hempty] at hsucc ⊢
      by_cases hz : step = 0
      · subst hz
        have h0 : (0 : Int).toNat = 0 := rfl
        simp only [if_true, h0, List.take_zero, runList]
        have h := scan_observed migrationRolledBack none w
        exact ⟨trivial, trivial, h.1.trans h.2.2.symm⟩
      · simp only [if_neg hz]
        have g := backward_nil_observed m _ w hsucc
        rw [runList_rollbackCheck, g.2.1, g.2.2.2]
        refine ⟨rfl, rfl, ?_⟩
        show notifiedIds migrationRolledBack
          (((seen (Op.scan none) w).notes ++
            ((backwardSet m.migrations w.db.ledger).reverse.take step.toNat).map
              rolledBackNote).drop w.notes.length) = _
        have hn : (seen (Op.scan none) w).notes = w.notes := rfl
        rw [hn, List.drop_left, notifiedIds_rolledBack]
  exact ⟨hmain.1, hmain.2.1, hmain.2.2, hcalls, hlen⟩

/-- C14, on the inputs of `Test_Migrator_RollbackStepCheck`: with the ledger
[1, 2, 4], n = 3 notifies 4, 2, 1 and n = 2 notifies 4, 2, the units
`RollbackStep` rolls back. -/
theorem rollback_check_parity_witness :
    (testMigrator.RollbackStep 3 world124).1 = Outcome.nil
    ∧ notifiedIds migrationRolledBack
          ((testMigrator.RollbackStepCheck 3 world124).2.notes.drop world124.notes.length)
        = backwardCalls ((testMigrator.RollbackStep 3 world124).2.ops.drop world124.ops.length)
    ∧ notifiedIds migrationRolledBack
          ((testMigrator.RollbackStepCheck 3 world124).2.notes.drop world124.notes.length)
        = ["migration_4", "migration_2", "migration_1"]
    ∧ backwardCalls ((testMigrator.RollbackStep 3 world124).2.ops.drop world124.ops.length)
        = ["migration_4", "migration_2", "migration_1"]
    ∧ notifiedIds migrationRolledBack
          ((testMigrator.RollbackStepCheck 2 world124).2.notes.drop world124.notes.length)
        = ["migration_4", "migration_2"]
    ∧ backwardCalls ((testMigrator.RollbackStep 2 world124).2.ops.drop world124.ops.length)
        = ["migration_4", "migration_2"] :=
  ⟨by decide, (rollback_check_parity testMigrator 3 world124 (by decide)).2.2.1,
    by decide, by decide, by decide, by decide⟩

end GormMigrator

namespace GormMigrator

variable {σ : Type}

/-! ## Forward steps undone by backward steps -/

/-- C20: for a sequence with unique ids and a ledger whose recorded ids of the
sequence are exactly the ids of its first `k` units, for 0 <= n <= |forward set|:
when all operations succeed, that is when `RunStep n` returns nil and the
`RollbackStep n` that follows it returns nil, the ledger is afterwards as it was at
the start; `RunStep n` called the forward handlers of the first n units of the
forward set, and `RollbackStep n` called the backward handlers of exactly these
units, in the reverse order. -/
theorem RunStep_RollbackStep_restores (m : Migrator σ) (step : Int) (w : World σ) (k : Nat)
    (hids : (idsOf m.migrations).Nodup)
    (hpre : ∀ x ∈ m.migrations,
      (x.Id ∈ w.db.ledger ↔ x.Id ∈ idsOf (m.migrations.take k)))
    (h0 : 0 ≤ step) (hle : step ≤ ((forwardSet m.migrations w.db.ledger).length : Int))
    (hrun : (m.RunStep step w).1 = Outcome.nil)
    (hback : (m.RollbackStep step (m.RunStep step w).2).1 = Outcome.nil) :
    (m.RollbackStep step (m.RunStep step w).2).2.db.ledger = w.db.ledger
    ∧ forwardCalls ((m.RunStep step w).2.ops.drop w.ops.length)
        = idsOf ((forwardSet m.migrations w.db.ledger).take step.toNat)
    ∧ ((forwardCalls ((m.RunStep step w).2.ops.drop w.ops.length)).length : Int) = step
    ∧ backwardCalls ((m.RollbackStep step (m.RunStep step w).2).2.ops.drop
          (m.RunStep step w).2.ops.length)
        = (forwardCalls ((m.RunStep step w).2.ops.drop w.ops.length)).reverse := by
  have h1 := RunStep_nil_observed m step w hrun
  have h2 := RollbackStep_nil_observed m step (m.RunStep step w).2 hback
  have hlen : ((forwardSet m.migrations w.db.ledger).take step.toNat).length = step.toNat := by
    rw [List.length_take]
    omega
  have hsel : (backwardSet m.migrations (m.RunStep step w).2.db.ledger).reverse.take step.toNat
      = ((forwardSet m.migrations w.db.ledger).take step.toNat).reverse := by
    rw [h1.1, backwardSet_after_step m.migrations w.db.ledger k step.toNat hids hpre,
      List.reverse_append]
    have hl2 : ((forwardSet m.migrations w.db.ledger).take step.toNat).reverse.length
        = step.toNat := by
      rw [List.length_reverse, hlen]
    rw [List.take_append_of_le_length (by omega), List.take_of_length_le (by omega)]
  have hfresh : ∀ y ∈ w.db.ledger,
      y ∉ idsOf ((forwardSet m.migrations w.db.ledger).take step.toNat).reverse := by
    intro y hy hmem
    rcases List.mem_map.mp hmem with ⟨x, hx, hxy⟩
    have hxf : x ∈ forwardSet m.migrations w.db.ledger :=
      List.mem_of_mem_take (List.mem_reverse.mp hx)
    have hnot : x.Id ∉ w.db.ledger := by
      simpa using (List.mem_filter.mp hxf).2
    exact hnot (by rw [hxy]; exact hy)
  have hledger : (m.RollbackStep step (m.RunStep step w).2).2.db.ledger = w.db.ledger := by
    rw [h2.1, hsel, h1.1, List.filter_append]
    have ha : w.db.ledger.filter (fun y => decide (y ∉ idsOf
        ((forwardSet m.migrations w.db.ledger).take step.toNat).reverse)) = w.db.ledger := by
      rw [List.filter_eq_self]
      intro y hy
      simpa using hfresh y hy
    have hb2 : (idsOf ((forwardSet m.migrations w.db.ledger).take step.toNat)).filter
        (fun y => decide (y ∉ idsOf
          ((forwardSet m.migrations w.db.ledger).take step.toNat).reverse)) = [] := by
      rw [List.filter_eq_nil_iff]
      intro y hy
      have : y ∈ idsOf ((forwardSet m.migrations w.db.ledger).take step.toNat).reverse := by
        unfold idsOf at hy ⊢
        rw [List.map_reverse]
        exact List.mem_reverse.mpr hy
      simpa using this
    rw [ha, hb2, List.append_nil]
  refine ⟨hledger, h1.2.2, ?_, ?_⟩
  · rw [h1.2.2]
    unfold idsOf
    rw [List.length_map, hlen]
    omega
  · rw [h2.2.2, hsel, h1.2.2]
    unfold idsOf
    rw [List.map_reverse]

/-- C20, on the sequence 0..4: from the ledger [0, 1], `RunStep 2` executes 2 then
3 and `RollbackStep 2` rolls back 3 then 2, restoring [0, 1]; from the ledger
[0, 2], whose recorded ids are not those of a start of the sequence, `RunStep 1`
executes 1 but `RollbackStep 1` rolls back 2 and leaves [0, 1].  The two
table-creating units, whose handlers fail on other states, go forth and back too. -/
theorem RunStep_RollbackStep_restores_witness :
    (idsOf testMigrator.migrations).Nodup
    ∧ (∀ x ∈ testMigrator.migrations,
        (x.Id ∈ world01.db.ledger ↔ x.Id ∈ idsOf (testMigrator.migrations.take 2)))
    ∧ (0 : Int) ≤ 2
    ∧ (2 : Int) ≤ ((forwardSet testMigrator.migrations world01.db.ledger).length : Int)
    ∧ (testMigrator.RunStep 2 world01).1 = Outcome.nil
    ∧ (testMigrator.RollbackStep 2 (testMigrator.RunStep 2 world01).2).1 = Outcome.nil
    ∧ (testMigrator.RollbackStep 2 (testMigrator.RunStep 2 world01).2).2.db.ledger
        = world01.db.ledger
    ∧ forwardCalls ((testMigrator.RunStep 2 world01).2.ops.drop world01.ops.length)
        = ["migration_2", "migration_3"]
    ∧ backwardCalls ((testMigrator.RollbackStep 2 (testMigrator.RunStep 2 world01).2).2.ops.drop
          (testMigrator.RunStep 2 world01).2.ops.length)
        = ["migration_3", "migration_2"]
    ∧ forwardCalls ((testMigrator.RunStep 1 world02).2.ops.drop world02.ops.length)
        = ["migration_1"]
    ∧ backwardCalls ((testMigrator.RollbackStep 1 (testMigrator.RunStep 1 world02).2).2.ops.drop
          (testMigrator.RunStep 1 world02).2.ops.length)
        = ["migration_2"]
    ∧ (testMigrator.RollbackStep 1 (testMigrator.RunStep 1 world02).2).2.db.ledger
        = ["migration_0", "migration_1"]
    ∧ (testMigrator.RollbackStep 1 (testMigrator.RunStep 1 world02).2).2.db.ledger
        ≠ world02.db.ledger
    ∧ (tableMigrator.RunStep 2 (executedWorld [])).2.db
        = { data := ["users", "posts"], ledger := ["create_users", "create_posts"] }
    ∧ (tableMigrator.RollbackStep 2 (tableMigrator.RunStep 2 (executedWorld [])).2).1
        = Outcome.nil
    ∧ (tableMigrator.RollbackStep 2 (tableMigrator.RunStep 2 (executedWorld [])).2).2.db
        = (executedWorld []).db :=
  ⟨by decide, world01_records_start, by decide, by decide, by decide, by decide,
    (RunStep_RollbackStep_restores testMigrator 2 world01 2 (by decide) world01_records_start
      (by decide) (by decide) (by decide) (by decide)).1,
    by decide, by decide, by decide, by decide, by decide, by decide, by decide, by decide,
    by decide⟩

end GormMigrator
